import Mathlib

/-!
Verification of the `jordiqui/revolution` helper scripts and test harness.

The Python sources are shallowly embedded:
* pure list/arithmetic code becomes Lean functions over `List`, `Nat`, `Int`
  and `Rat` (Python integers are unbounded, so no overflow modelling is
  needed; Python float arithmetic on the small ratios involved is modelled
  by exact rational arithmetic);
* line-oriented subprocess interaction is modelled over the finite list of
  output lines observed by the reading loop, with process termination and
  deadline expiry represented as explicit end-of-stream states;
* fallible code returns `Except`.
-/

namespace Revolution

/-! ## scripts/analyze_fen_regression.py -/

/-- Embedding of the loop body of `compute_consecutive_streaks`
(`scripts/analyze_fen_regression.py`, lines 16-30).  The first argument is
the `(current_fen, current_len)` pair carried by the Python loop (`none`
before the first iteration); emitting `(current_fen, current_len)` models
`streaks.append(...)`, both at a change of FEN and at the trailing flush. -/
def streaksAux : Option (String × Nat) → List String → List (String × Nat)
  | none, [] => []
  | some cur, [] => [cur]
  | none, fen :: rest => streaksAux (some (fen, 1)) rest
  | some (cf, cl), fen :: rest =>
      if fen = cf then
        streaksAux (some (cf, cl + 1)) rest
      else
        (cf, cl) :: streaksAux (some (fen, 1)) rest

/-- `compute_consecutive_streaks` from `scripts/analyze_fen_regression.py`:
run-length encode the list of FEN strings into `(fen, streak length)`
pairs. -/
def compute_consecutive_streaks (fens : List String) : List (String × Nat) :=
  streaksAux none fens

/-- Expansion of a streak list: each FEN repeated its streak length, in
order (the reconstruction the claim talks about). -/
def expandStreaks (streaks : List (String × Nat)) : List String :=
  (streaks.map fun s => List.replicate s.2 s.1).flatten

lemma streaksAux_expand (cf : String) (cl : Nat) (fens : List String) :
    expandStreaks (streaksAux (some (cf, cl)) fens) =
      List.replicate cl cf ++ fens := by
  induction fens generalizing cf cl with
  | nil => simp [streaksAux, expandStreaks]
  | cons f rest ih =>
      by_cases h : f = cf
      · subst h
        have hstep : streaksAux (some (f, cl)) (f :: rest) =
            streaksAux (some (f, cl + 1)) rest := by
          simp [streaksAux]
        rw [hstep, ih, List.replicate_succ']
        simp
      · simp only [streaksAux, if_neg h, expandStreaks, List.map_cons,
          List.flatten_cons]
        have hrec := ih f 1
        simp only [expandStreaks] at hrec
        rw [hrec]
        simp

lemma streaksAux_cons_head (cf : String) (cl : Nat) (fens : List String) :
    ∃ k tl, streaksAux (some (cf, cl)) fens = (cf, k) :: tl := by
  induction fens generalizing cl with
  | nil => exact ⟨cl, [], rfl⟩
  | cons f rest ih =>
      by_cases h : f = cf
      · subst h
        simpa [streaksAux] using ih (cl + 1)
      · exact ⟨cl, streaksAux (some (f, 1)) rest, by simp [streaksAux, h]⟩

lemma streaksAux_chain' (cf : String) (cl : Nat) (fens : List String) :
    List.Chain' (fun a b : String × Nat => a.1 ≠ b.1)
      (streaksAux (some (cf, cl)) fens) := by
  induction fens generalizing cf cl with
  | nil => simp [streaksAux]
  | cons f rest ih =>
      by_cases h : f = cf
      · subst h
        simpa [streaksAux] using ih f (cl + 1)
      · simp only [streaksAux, if_neg h]
        rw [List.chain'_cons']
        refine ⟨?_, ih f 1⟩
        intro b hb
        obtain ⟨k, tl, hk⟩ := streaksAux_cons_head f 1 rest
        rw [hk] at hb
        simp only [List.head?_cons, Option.mem_def, Option.some.injEq] at hb
        subst hb
        exact fun hcf => h hcf.symm

lemma streaksAux_len_pos (cf : String) (cl : Nat) (hcl : 1 ≤ cl)
    (fens : List String) :
    ∀ p ∈ streaksAux (some (cf, cl)) fens, 1 ≤ p.2 := by
  induction fens generalizing cf cl with
  | nil =>
      intro p hp
      simp only [streaksAux, List.mem_singleton] at hp
      subst hp
      exact hcl
  | cons f rest ih =>
      intro p hp
      by_cases h : f = cf
      · subst h
        simp only [streaksAux, if_pos rfl] at hp
        exact ih f (cl + 1) (Nat.le_add_left 1 cl) p hp
      · simp only [streaksAux, if_neg h, List.mem_cons] at hp
        rcases hp with hp | hp
        · subst hp; exact hcl
        · exact ih f 1 le_rfl p hp

lemma expandStreaks_length (streaks : List (String × Nat)) :
    (expandStreaks streaks).length = (streaks.map Prod.snd).sum := by
  simp [expandStreaks, List.length_flatten, Function.comp_def]

/-- C10: `compute_consecutive_streaks` produces streaks of length at least
one whose lengths sum to the input length, with no two adjacent streaks
sharing a FEN, and whose expansion (each FEN repeated its streak length, in
order) reconstructs the input list exactly. -/
theorem compute_consecutive_streaks_correct (fens : List String) :
    (∀ p ∈ compute_consecutive_streaks fens, 1 ≤ p.2) ∧
    ((compute_consecutive_streaks fens).map Prod.snd).sum = fens.length ∧
    List.Chain' (fun a b : String × Nat => a.1 ≠ b.1)
      (compute_consecutive_streaks fens) ∧
    expandStreaks (compute_consecutive_streaks fens) = fens := by
  have hexp : expandStreaks (compute_consecutive_streaks fens) = fens := by
    cases fens with
    | nil => simp [compute_consecutive_streaks, streaksAux, expandStreaks]
    | cons f rest =>
        simpa [compute_consecutive_streaks, streaksAux] using
          streaksAux_expand f 1 rest
  refine ⟨?_, ?_, ?_, hexp⟩
  · intro p hp
    cases fens with
    | nil => simp [compute_consecutive_streaks, streaksAux] at hp
    | cons f rest =>
        exact streaksAux_len_pos f 1 le_rfl rest p
          (by simpa [compute_consecutive_streaks, streaksAux] using hp)
  · rw [← expandStreaks_length, hexp]
  · cases fens with
    | nil => simp [compute_consecutive_streaks, streaksAux]
    | cons f rest =>
        simpa [compute_consecutive_streaks, streaksAux] using
          streaksAux_chain' f 1 rest

/-- C10 witness: the four properties evaluated on a concrete FEN list. -/
theorem compute_consecutive_streaks_correct_witness :
    (∀ p ∈ compute_consecutive_streaks ["a", "a", "b", "a"], 1 ≤ p.2) ∧
    ((compute_consecutive_streaks ["a", "a", "b", "a"]).map Prod.snd).sum =
      (["a", "a", "b", "a"] : List String).length ∧
    List.Chain' (fun a b : String × Nat => a.1 ≠ b.1)
      (compute_consecutive_streaks ["a", "a", "b", "a"]) ∧
    expandStreaks (compute_consecutive_streaks ["a", "a", "b", "a"]) =
      ["a", "a", "b", "a"] :=
  compute_consecutive_streaks_correct ["a", "a", "b", "a"]

/-! ## Line-predicate waiters

`UCIProcess.collect_until` (`scripts/run_metrics_pipeline.py`, lines 39-50)
reads lines from the engine's stdout until a predicate matches; an empty
read (`if not line`) means the pipe reached end of file, which raises a
`RuntimeError`.  The embedding runs the same loop over the finite list of
complete lines the pipe delivers before end of file; each delivered line is
modelled without its terminating newline, so the `line.rstrip("\n")` of the
source is the identity there and lines are used as given. -/

namespace UCIProcess

/-- `UCIProcess.collect_until`: consume lines, appending each to the
result, until `predicate` holds of a line; end of stream models the empty
`readline()` result, which the source turns into a `RuntimeError`. -/
def collect_until (predicate : String → Bool) :
    List String → Except String (List String)
  | [] => .error "Engine closed the connection unexpectedly"
  | line :: rest =>
      if predicate line then .ok [line]
      else (collect_until predicate rest).map (line :: ·)

end UCIProcess

/-- Python `str.strip()` (no argument): remove leading and trailing
whitespace, as done by `EngineSession.read_until` on every queued line
(ASCII whitespace suffices for engine output lines). -/
def pyStrip (s : String) : String :=
  ⟨((s.toList.dropWhile Char.isWhitespace).reverse.dropWhile
      Char.isWhitespace).reverse⟩

namespace EngineSession

/-- Loop body of `EngineSession.read_until`
(`tests/test_experience_zobrist.py`, lines 40-63): `lines` is the
accumulator, the second list holds the raw lines the background reader
queues before the deadline (queue timeout, `None` sentinel and deadline
expiry all end the stream and raise the `AssertionError`). -/
def read_until_go (predicate : String → Bool) (lines : List String) :
    List String → Except String (List String)
  | [] => .error "Timed out waiting for output"
  | raw :: rest =>
      let stripped := pyStrip raw
      let lines2 := lines ++ [stripped]
      if predicate stripped then .ok lines2
      else read_until_go predicate lines2 rest

/-- `EngineSession.read_until`: strip each queued line, collect it, and
return the collection once the predicate matches. -/
def read_until (predicate : String → Bool) (avail : List String) :
    Except String (List String) :=
  read_until_go predicate [] avail

end EngineSession

/-- Modelled from the spec: "the line-predicate waiter returns exactly the
prefix of lines up to and including the first match, in arrival order" —
the lines not matching before the first matching one, followed by that
first matching line. -/
def specWaiterOutput (p : String → Bool) (ls : List String) : List String :=
  ls.takeWhile (fun l => !(p l)) ++ (ls.dropWhile fun l => !(p l)).take 1

lemma collect_until_eq_spec (p : String → Bool) (stream : List String)
    (h : ∃ l ∈ stream, p l = true) :
    UCIProcess.collect_until p stream = .ok (specWaiterOutput p stream) := by
  induction stream with
  | nil => simp at h
  | cons line rest ih =>
      by_cases hl : p line
      · simp [UCIProcess.collect_until, specWaiterOutput, hl]
      · have hrest : ∃ l ∈ rest, p l = true := by
          rcases h with ⟨l, hmem, hpl⟩
          rcases List.mem_cons.1 hmem with rfl | hmem
          · exact absurd hpl (by simpa using hl)
          · exact ⟨l, hmem, hpl⟩
        simp only [UCIProcess.collect_until, if_neg hl, ih hrest,
          Except.map, specWaiterOutput]
        simp [hl, specWaiterOutput]

lemma read_until_go_eq_spec (p : String → Bool) (acc avail : List String)
    (h : ∃ l ∈ avail, p (pyStrip l) = true) :
    EngineSession.read_until_go p acc avail =
      .ok (acc ++ specWaiterOutput p (avail.map pyStrip)) := by
  induction avail generalizing acc with
  | nil => simp at h
  | cons raw rest ih =>
      by_cases hl : p (pyStrip raw)
      · simp [EngineSession.read_until_go, specWaiterOutput, hl]
      · have hrest : ∃ l ∈ rest, p (pyStrip l) = true := by
          rcases h with ⟨l, hmem, hpl⟩
          rcases List.mem_cons.1 hmem with rfl | hmem
          · exact absurd hpl (by simpa using hl)
          · exact ⟨l, hmem, hpl⟩
        simp only [EngineSession.read_until_go, if_neg hl, ih _ hrest]
        simp [hl, specWaiterOutput]

/-- C1: when some line of the stream satisfies the predicate, both
`UCIProcess.collect_until` and `EngineSession.read_until` return exactly
the prefix of the (stripped) input lines up to and including the first
matching line, in arrival order. -/
theorem waiters_return_first_match_prefix_lines (p : String → Bool)
    (stream avail : List String)
    (hstream : ∃ l ∈ stream, p l = true)
    (havail : ∃ l ∈ avail, p (pyStrip l) = true) :
    UCIProcess.collect_until p stream = .ok (specWaiterOutput p stream) ∧
    EngineSession.read_until p avail =
      .ok (specWaiterOutput p (avail.map pyStrip)) := by
  refine ⟨collect_until_eq_spec p stream hstream, ?_⟩
  simpa [EngineSession.read_until] using
    read_until_go_eq_spec p [] avail havail

/-- C1 witness: both waiters evaluated on a concrete stream containing a
matching line. -/
theorem waiters_return_first_match_prefix_lines_witness :
    UCIProcess.collect_until (fun l => l == "uciok")
        ["id name rev", "uciok", "late"] =
      .ok (specWaiterOutput (fun l => l == "uciok")
        ["id name rev", "uciok", "late"]) ∧
    EngineSession.read_until (fun l => l == "uciok")
        ["id name rev", " uciok ", "late"] =
      .ok (specWaiterOutput (fun l => l == "uciok")
        (["id name rev", " uciok ", "late"].map pyStrip)) :=
  waiters_return_first_match_prefix_lines (fun l => l == "uciok")
    ["id name rev", "uciok", "late"] ["id name rev", " uciok ", "late"]
    ⟨"uciok", by decide⟩ ⟨" uciok ", by decide⟩

/-! ## Metrics summarization (`scripts/run_metrics_pipeline.py`)

Python integers are exact, so the counters become `Nat`; the float
divisions of `summarize_metrics` are modelled by exact rational
arithmetic, and Python's `round(value, 4)` by rounding the exact rational
to four decimal digits with ties to even (banker's rounding). -/

/-- Round a rational to the nearest integer, ties to even, as Python's
`round` does. -/
def roundHalfEven (q : ℚ) : ℤ :=
  let n := ⌊q⌋
  let f := q - n
  if f < 1 / 2 then n
  else if 1 / 2 < f then n + 1
  else if n % 2 = 0 then n else n + 1

/-- `round_value` from `scripts/run_metrics_pipeline.py` (line 67):
`round(value, 4)`, always called with the default four digits. -/
def round_value (value : ℚ) : ℚ :=
  (roundHalfEven (value * 10000) : ℚ) / 10000

lemma roundHalfEven_intCast (k : ℤ) : roundHalfEven (k : ℚ) = k := by
  simp [roundHalfEven]

lemma round_value_zero : round_value 0 = 0 := by
  simp [round_value]
  norm_num [roundHalfEven]

lemma round_value_idem (q : ℚ) :
    round_value (round_value q) = round_value q := by
  unfold round_value
  rw [div_mul_cancel₀ _ (by norm_num : (10000 : ℚ) ≠ 0), roundHalfEven_intCast]

/-- One entry of the `iterations` list of a metrics document. -/
structure IterationEntry where
  depth : Nat
  nodes : Nat
  time_ms : Nat
  re_searches : Nat
deriving DecidableEq

/-- The `aspiration` counters of a metrics document. -/
structure AspirationStats where
  re_searches : Nat
  fail_highs : Nat
  fail_lows : Nat
deriving DecidableEq

/-- The `tt` counters of a metrics document. -/
structure TTStats where
  probes : Nat
  hits : Nat
  stores : Nat
  replacements : Nat
deriving DecidableEq

/-- The `null_move` counters of a metrics document. -/
structure NullMoveStats where
  calls : Nat
  cutoffs : Nat
deriving DecidableEq

/-- A metrics document as read back from the engine's JSON file.  The LMR
histogram is keyed in the source by bucket labels such as `"3"` or `"3+"`;
`int(str(bucket).rstrip("+"))` reduces each label to its integer value, so
the histogram is modelled as (parsed bucket value, count) pairs, and
`lmp_counts` as the list of counter values of the `lmp` mapping. -/
structure MetricsDoc where
  iterations : List IterationEntry
  aspiration : AspirationStats
  tt : TTStats
  null_move : NullMoveStats
  lmr_histogram : List (Nat × Nat)
  lmp_counts : List Nat
deriving DecidableEq

/-- The flat summary record returned by `summarize_metrics`
(`scripts/run_metrics_pipeline.py`, lines 111-131), field per dict key. -/
structure Summary where
  final_depth : Nat
  iterations : Nat
  avg_re_searches : ℚ
  aspiration_re_searches : Nat
  aspiration_fail_highs : Nat
  aspiration_fail_lows : Nat
  total_nodes : Nat
  total_time_ms : Nat
  nps : ℚ
  tt_hit_rate : ℚ
  tt_replace_rate : ℚ
  tt_probes : Nat
  tt_replacements : Nat
  nmp_calls : Nat
  nmp_cutoffs : Nat
  nmp_cutoff_rate : ℚ
  lmr_events : Nat
  lmr_avg_reduction : ℚ
  lmp_prunes : Nat
deriving DecidableEq

/-- `summarize_metrics` (`scripts/run_metrics_pipeline.py`, lines 71-131):
ratio-of-sums rates guarded against zero denominators, each rounded to
four digits by `round_value`. -/
def summarize_metrics (metrics : MetricsDoc) : Summary :=
  let iterations := metrics.iterations
  let total_nodes := (iterations.map (·.nodes)).sum
  let total_time_ms := (iterations.map (·.time_ms)).sum
  let iteration_count := iterations.length
  let avg_re_searches : ℚ :=
    if iteration_count ≠ 0 then
      (((iterations.map (·.re_searches)).sum : Nat) : ℚ) / iteration_count
    else 0
  let final_depth :=
    match iterations.getLast? with
    | some it => it.depth
    | none => 0
  let probes := metrics.tt.probes
  let hits := metrics.tt.hits
  let hit_rate : ℚ := if probes ≠ 0 then (hits : ℚ) / probes else 0
  let stores := metrics.tt.stores
  let replacements := metrics.tt.replacements
  let replace_rate : ℚ :=
    if stores ≠ 0 then (replacements : ℚ) / stores else 0
  let nmp_calls := metrics.null_move.calls
  let nmp_cutoffs := metrics.null_move.cutoffs
  let nmp_cutoff_rate : ℚ :=
    if nmp_calls ≠ 0 then (nmp_cutoffs : ℚ) / nmp_calls else 0
  let total_lmr := (metrics.lmr_histogram.map (·.2)).sum
  let weighted_reduction : Nat :=
    (metrics.lmr_histogram.map fun b => b.1 * b.2).sum
  let lmr_avg : ℚ :=
    if total_lmr ≠ 0 then (weighted_reduction : ℚ) / total_lmr else 0
  let total_lmp := metrics.lmp_counts.sum
  let nps : ℚ :=
    if total_time_ms ≠ 0 then (total_nodes : ℚ) * 1000 / total_time_ms else 0
  { final_depth := final_depth
    iterations := iteration_count
    avg_re_searches := round_value avg_re_searches
    aspiration_re_searches := metrics.aspiration.re_searches
    aspiration_fail_highs := metrics.aspiration.fail_highs
    aspiration_fail_lows := metrics.aspiration.fail_lows
    total_nodes := total_nodes
    total_time_ms := total_time_ms
    nps := round_value nps
    tt_hit_rate := round_value hit_rate
    tt_replace_rate := round_value replace_rate
    tt_probes := probes
    tt_replacements := replacements
    nmp_calls := nmp_calls
    nmp_cutoffs := nmp_cutoffs
    nmp_cutoff_rate := round_value nmp_cutoff_rate
    lmr_events := total_lmr
    lmr_avg_reduction := round_value lmr_avg
    lmp_prunes := total_lmp }

/-- The aggregate record built by `aggregate_summary`
(`scripts/run_metrics_pipeline.py`, lines 134-165), field per dict key. -/
structure Aggregate where
  mean_avg_re_searches : ℚ
  mean_nps : ℚ
  mean_tt_hit_rate : ℚ
  mean_tt_replace_rate : ℚ
  mean_nmp_cutoff_rate : ℚ
  mean_lmr_avg_reduction : ℚ
  total_nodes : Nat
  total_time_ms : Nat
  overall_nps : ℚ
  total_lmr_events : Nat
  total_lmp_prunes : Nat
  total_aspiration_re_searches : Nat
  total_nmp_cutoffs : Nat
  max_depth : Nat
deriving DecidableEq

/-- `statistics.fmean`: arithmetic mean of a list (only ever applied to
non-empty lists by the source). -/
def fmean (xs : List ℚ) : ℚ := xs.sum / xs.length

/-- `aggregate_summary` (`scripts/run_metrics_pipeline.py`, lines
134-165).  The source receives run records and projects out
`run["summary"]`; the embedding takes the summaries directly.  An empty
input returns `{}`, modelled as `none`; `max(...)` over the non-empty
final depths is modelled by `foldl max 0`, which agrees with `max` on
`Nat`. -/
def aggregate_summary (run_summaries : List Summary) : Option Aggregate :=
  if run_summaries = [] then none
  else
    let total_nodes := (run_summaries.map (·.total_nodes)).sum
    let total_time := (run_summaries.map (·.total_time_ms)).sum
    some
      { mean_avg_re_searches :=
          round_value (fmean (run_summaries.map (·.avg_re_searches)))
        mean_nps := round_value (fmean (run_summaries.map (·.nps)))
        mean_tt_hit_rate :=
          round_value (fmean (run_summaries.map (·.tt_hit_rate)))
        mean_tt_replace_rate :=
          round_value (fmean (run_summaries.map (·.tt_replace_rate)))
        mean_nmp_cutoff_rate :=
          round_value (fmean (run_summaries.map (·.nmp_cutoff_rate)))
        mean_lmr_avg_reduction :=
          round_value (fmean (run_summaries.map (·.lmr_avg_reduction)))
        total_nodes := total_nodes
        total_time_ms := total_time
        overall_nps :=
          if total_time ≠ 0 then
            round_value ((total_nodes : ℚ) * 1000 / total_time)
          else 0
        total_lmr_events := (run_summaries.map (·.lmr_events)).sum
        total_lmp_prunes := (run_summaries.map (·.lmp_prunes)).sum
        total_aspiration_re_searches :=
          (run_summaries.map (·.aspiration_re_searches)).sum
        total_nmp_cutoffs := (run_summaries.map (·.nmp_cutoffs)).sum
        max_depth := (run_summaries.map (·.final_depth)).foldl max 0 }

/-- A metrics document whose transposition table saw 3 probes and 1 hit;
all other counters are empty. -/
def thirdHitMetrics : MetricsDoc :=
  { iterations := []
    aspiration := ⟨0, 0, 0⟩
    tt := { probes := 3, hits := 1, stores := 0, replacements := 0 }
    null_move := ⟨0, 0⟩
    lmr_histogram := []
    lmp_counts := [] }

/-- C2 counterexample: with 3 probes and 1 hit the reported
`tt_hit_rate` is the four-digit rounding `0.3333`, not the exact ratio
`1/3` of summed numerator to summed denominator, so the claimed equality
with the ratio fails. -/
theorem summarize_metrics_hit_rate_ne_ratio :
    (summarize_metrics thirdHitMetrics).tt_hit_rate ≠
      ((thirdHitMetrics.tt.hits : ℚ) / thirdHitMetrics.tt.probes) := by
  have hval : (summarize_metrics thirdHitMetrics).tt_hit_rate =
      3333 / 10000 := by
    simp only [summarize_metrics, thirdHitMetrics]
    norm_num [round_value, roundHalfEven]
  rw [hval, thirdHitMetrics]
  norm_num

/-- C2 amended: every derived rate of the summary is the four-digit
rounding (`round_value`) of the ratio of summed numerator to summed
denominator when the denominator is nonzero, and `0.0` when the
denominator is zero; in particular `probes = 0` yields a `0.0` hit rate
with no division by zero. -/
theorem summarize_metrics_rates_are_guarded_rounded_ratios
    (m : MetricsDoc) :
    (summarize_metrics m).tt_hit_rate =
      (if m.tt.probes = 0 then 0
       else round_value ((m.tt.hits : ℚ) / m.tt.probes)) ∧
    (summarize_metrics m).tt_replace_rate =
      (if m.tt.stores = 0 then 0
       else round_value ((m.tt.replacements : ℚ) / m.tt.stores)) ∧
    (summarize_metrics m).nmp_cutoff_rate =
      (if m.null_move.calls = 0 then 0
       else round_value ((m.null_move.cutoffs : ℚ) / m.null_move.calls)) ∧
    (summarize_metrics m).lmr_avg_reduction =
      (if (m.lmr_histogram.map (·.2)).sum = 0 then 0
       else round_value
        ((((m.lmr_histogram.map fun b => b.1 * b.2).sum : Nat) : ℚ) /
          (m.lmr_histogram.map (·.2)).sum)) ∧
    (summarize_metrics m).avg_re_searches =
      (if m.iterations.length = 0 then 0
       else round_value
        (((m.iterations.map (·.re_searches)).sum : ℚ) /
          m.iterations.length)) ∧
    (summarize_metrics m).nps =
      (if (m.iterations.map (·.time_ms)).sum = 0 then 0
       else round_value
        (((m.iterations.map (·.nodes)).sum : ℚ) * 1000 /
          (m.iterations.map (·.time_ms)).sum)) := by
  refine ⟨?_, ?_, ?_, ?_, ?_, ?_⟩ <;>
    · simp only [summarize_metrics]
      split_ifs with h <;> simp_all [round_value_zero, Function.comp_def]

lemma fmean_pair (x : ℚ) : fmean [x, x] = x := by
  have h2 : ((2 : Nat) : ℚ) ≠ 0 := by norm_num
  simp only [fmean, List.sum_cons, List.sum_nil, List.length_cons,
    List.length_nil]
  rw [show x + (x + 0) = 2 * x by ring]
  push_cast
  rw [mul_div_cancel_left₀ x (by norm_num : (2 : ℚ) ≠ 0)]

lemma aggregate_summary_pair (s : Summary)
    (havg : round_value s.avg_re_searches = s.avg_re_searches)
    (hnps : round_value s.nps = s.nps)
    (hhit : round_value s.tt_hit_rate = s.tt_hit_rate)
    (hrep : round_value s.tt_replace_rate = s.tt_replace_rate)
    (hnmp : round_value s.nmp_cutoff_rate = s.nmp_cutoff_rate)
    (hlmr : round_value s.lmr_avg_reduction = s.lmr_avg_reduction)
    (hnn : s.nps =
      if s.total_time_ms ≠ 0 then
        round_value ((s.total_nodes : ℚ) * 1000 / s.total_time_ms)
      else 0) :
    aggregate_summary [s, s] =
      some
        { mean_avg_re_searches := s.avg_re_searches
          mean_nps := s.nps
          mean_tt_hit_rate := s.tt_hit_rate
          mean_tt_replace_rate := s.tt_replace_rate
          mean_nmp_cutoff_rate := s.nmp_cutoff_rate
          mean_lmr_avg_reduction := s.lmr_avg_reduction
          total_nodes := 2 * s.total_nodes
          total_time_ms := 2 * s.total_time_ms
          overall_nps := s.nps
          total_lmr_events := 2 * s.lmr_events
          total_lmp_prunes := 2 * s.lmp_prunes
          total_aspiration_re_searches := 2 * s.aspiration_re_searches
          total_nmp_cutoffs := 2 * s.nmp_cutoffs
          max_depth := s.final_depth } := by
  simp only [aggregate_summary, List.map_cons, List.map_nil, fmean_pair,
    List.sum_cons, List.sum_nil, List.foldl, if_neg
      (by simp : ¬([s, s] : List Summary) = [])]
  rw [Option.some_inj, Aggregate.mk.injEq]
  refine ⟨havg, hnps, hhit, hrep, hnmp, hlmr, by omega, by omega, ?_,
    by omega, by omega, by omega, by omega, by omega⟩
  by_cases ht : s.total_time_ms = 0
  · simp [ht, hnn]
  · have hcond : s.total_time_ms + (s.total_time_ms + 0) ≠ 0 := by omega
    rw [if_pos hcond, hnn, if_pos ht]
    congr 1
    push_cast
    rw [show ((s.total_nodes : ℚ) + (s.total_nodes + 0)) * 1000 =
        2 * ((s.total_nodes : ℚ) * 1000) by ring,
      show ((s.total_time_ms : ℚ) + (s.total_time_ms + 0)) =
        2 * (s.total_time_ms : ℚ) by ring,
      mul_div_mul_left _ _ (by norm_num : (2 : ℚ) ≠ 0)]

/-- C3: aggregating one run's summary with itself reproduces the rate
fields (each `mean_*` field and `overall_nps` equal the corresponding
rate field of the summary) and doubles the count fields (`total_nodes`,
`total_time_ms`, `total_lmr_events`, `total_lmp_prunes`,
`total_aspiration_re_searches`, `total_nmp_cutoffs`). -/
theorem aggregate_summary_self_pair (m : MetricsDoc) :
    aggregate_summary [summarize_metrics m, summarize_metrics m] =
      some
        { mean_avg_re_searches := (summarize_metrics m).avg_re_searches
          mean_nps := (summarize_metrics m).nps
          mean_tt_hit_rate := (summarize_metrics m).tt_hit_rate
          mean_tt_replace_rate := (summarize_metrics m).tt_replace_rate
          mean_nmp_cutoff_rate := (summarize_metrics m).nmp_cutoff_rate
          mean_lmr_avg_reduction := (summarize_metrics m).lmr_avg_reduction
          total_nodes := 2 * (summarize_metrics m).total_nodes
          total_time_ms := 2 * (summarize_metrics m).total_time_ms
          overall_nps := (summarize_metrics m).nps
          total_lmr_events := 2 * (summarize_metrics m).lmr_events
          total_lmp_prunes := 2 * (summarize_metrics m).lmp_prunes
          total_aspiration_re_searches :=
            2 * (summarize_metrics m).aspiration_re_searches
          total_nmp_cutoffs := 2 * (summarize_metrics m).nmp_cutoffs
          max_depth := (summarize_metrics m).final_depth } := by
  apply aggregate_summary_pair
  · exact round_value_idem _
  · exact round_value_idem _
  · exact round_value_idem _
  · exact round_value_idem _
  · exact round_value_idem _
  · exact round_value_idem _
  · simp only [summarize_metrics]
    by_cases h : (m.iterations.map (·.time_ms)).sum = 0
    · simp [h, round_value_zero]
    · simp [h]

/-! ## tests/testing.py: the `Stockfish` wait operations

The five wait operations (`equals`, `expect`, `contains`, `starts_with`,
`check_output`) all iterate the `readline()` generator, which checks the
process, reads a line, strips it, appends it to `self.output` and yields
it; the `@timeout_decorator(MAX_TIMEOUT)` wrapper raises a
`TimeoutException` carrying the limit when the wrapped call does not
finish in time.  The embedding runs the shared loop over the list of
lines the process delivers within the allotted interval; the end of that
list is reached either because the process terminated (`poll()` not
`None`, so `_check_process_alive` raises `RuntimeError` after printing
the retained output) or because the deadline expired (so the decorator
raises `TimeoutException`). -/

/-- `MAX_TIMEOUT` from `tests/testing.py` (line 27). -/
def MAX_TIMEOUT : Nat := 60 * 5

/-- The two failure modes of a wait operation: the decorator's
`TimeoutException(message, timeout)` and the `RuntimeError` that
`_check_process_alive` raises after printing the retained output. -/
inductive WaitError where
  | timeoutExpired (message : String) (timeout : Nat)
  | processTerminated (printed : List String)
deriving DecidableEq

/-- The message built by `timeout_decorator`
(`tests/testing.py`, lines 140-143). -/
def timeoutMessage (funcName : String) (timeout : Nat) : String :=
  s!"Function {funcName} timed out after {timeout} seconds"

/-- Shared loop of the five wait operations over `readline()`: strip each
delivered line, append it to the retained output, stop successfully on a
predicate match; at the end of the delivered lines fail with
`processTerminated` when the child exited, `timeoutExpired` (carrying
`MAX_TIMEOUT`, the limit every wait operation is decorated with)
otherwise.  Returns the retained output list plus the outcome. -/
def readline_loop (pred : String → Bool) (output : List String)
    (avail : List String) (terminated : Bool) (funcName : String) :
    List String × Except WaitError Unit :=
  match avail with
  | [] =>
      (output,
        .error
          (if terminated then .processTerminated output
           else .timeoutExpired (timeoutMessage funcName MAX_TIMEOUT)
             MAX_TIMEOUT))
  | raw :: rest =>
      let line := pyStrip raw
      let output2 := output ++ [line]
      if pred line then (output2, .ok ())
      else readline_loop pred output2 rest terminated funcName

/-- Glob matching as `fnmatch.fnmatch` performs it on the patterns this
repository uses: `*` matches any (possibly empty) sequence, `?` any
single character, anything else itself (the character-class syntax of
`fnmatch` is not exercised by the test patterns). -/
def globMatch : List Char → List Char → Bool
  | [], [] => true
  | [], _ :: _ => false
  | '*' :: ps, [] => globMatch ps []
  | '*' :: ps, c :: s => globMatch ps (c :: s) || globMatch ('*' :: ps) s
  | '?' :: _, [] => false
  | '?' :: ps, _ :: s => globMatch ps s
  | _ :: _, [] => false
  | p :: ps, c :: s => (p == c) && globMatch ps s
termination_by p s => (s.length, p.length)

/-- `Stockfish.equals`: wait for a line equal to `expected_output`. -/
def equals (expected_output : String) (output avail : List String)
    (terminated : Bool) : List String × Except WaitError Unit :=
  readline_loop (fun line => line == expected_output) output avail
    terminated ("equals")

/-- `Stockfish.expect`: wait for a line matching the glob pattern
`expected_output` (`fnmatch.fnmatch(line, expected_output)`). -/
def expect (expected_output : String) (output avail : List String)
    (terminated : Bool) : List String × Except WaitError Unit :=
  readline_loop
    (fun line => globMatch expected_output.toList line.toList) output avail
    terminated ("expect")

/-- Substring containment, Python's `expected_output in line`. -/
def strContains (line sub : String) : Bool :=
  (List.range (line.toList.length + 1)).any fun k =>
    (line.toList.drop k).take sub.toList.length == sub.toList

/-- `Stockfish.contains`: wait for a line containing `expected_output`. -/
def contains (expected_output : String) (output avail : List String)
    (terminated : Bool) : List String × Except WaitError Unit :=
  readline_loop (fun line => strContains line expected_output) output avail
    terminated ("contains")

/-- `Stockfish.starts_with`: wait for a line starting with
`expected_output`. -/
def starts_with (expected_output : String) (output avail : List String)
    (terminated : Bool) : List String × Except WaitError Unit :=
  readline_loop (fun line => line.startsWith expected_output) output avail
    terminated ("starts_with")

/-- `Stockfish.check_output`: wait for a line on which the callback
returns `True`. -/
def check_output (callback : String → Bool) (output avail : List String)
    (terminated : Bool) : List String × Except WaitError Unit :=
  readline_loop (fun line => callback line) output avail terminated
    ("check_output")

/-- `Stockfish.clear_output`: reset the retained output log. -/
def clear_output (output : List String) : List String := []

/-- `Stockfish.get_output`: read the retained output log. -/
def get_output (output : List String) : List String := output

lemma readline_loop_no_match (pred : String → Bool)
    (output avail : List String) (terminated : Bool) (funcName : String)
    (h : ∀ l ∈ avail, pred (pyStrip l) = false) :
    readline_loop pred output avail terminated funcName =
      (output ++ avail.map pyStrip,
        .error
          (if terminated then
            .processTerminated (output ++ avail.map pyStrip)
           else .timeoutExpired (timeoutMessage funcName MAX_TIMEOUT)
             MAX_TIMEOUT)) := by
  induction avail generalizing output with
  | nil => simp [readline_loop]
  | cons raw rest ih =>
      have hr : pred (pyStrip raw) = false := h raw (by simp)
      simp only [readline_loop, hr, Bool.false_eq_true, if_false,
        List.map_cons]
      rw [ih (output ++ [pyStrip raw]) fun l hl => h l (by simp [hl])]
      simp

/-- C6: when no line arrives within the bounded interval that satisfies
the operation's predicate, every wait operation fails with the distinct
`TimeoutException` carrying the configured limit `MAX_TIMEOUT`; that
default limit is 300 seconds, and all five operations (`equals`,
`expect`, `contains`, `starts_with`, `check_output`) run the shared loop
under this decorator. -/
theorem wait_ops_timeout_carries_configured_limit :
    (∀ (pred : String → Bool) (output avail : List String)
        (funcName : String),
        (∀ l ∈ avail, pred (pyStrip l) = false) →
        readline_loop pred output avail false funcName =
          (output ++ avail.map pyStrip,
            .error (.timeoutExpired (timeoutMessage funcName MAX_TIMEOUT)
              MAX_TIMEOUT))) ∧
    MAX_TIMEOUT = 300 ∧
    (∀ e output avail terminated, equals e output avail terminated =
      readline_loop (fun line => line == e) output avail terminated
        ("equals")) ∧
    (∀ e output avail terminated, expect e output avail terminated =
      readline_loop (fun line => globMatch e.toList line.toList) output
        avail terminated ("expect")) ∧
    (∀ e output avail terminated, contains e output avail terminated =
      readline_loop (fun line => strContains line e) output avail
        terminated ("contains")) ∧
    (∀ e output avail terminated, starts_with e output avail terminated =
      readline_loop (fun line => line.startsWith e) output avail
        terminated ("starts_with")) ∧
    (∀ cb output avail terminated, check_output cb output avail terminated =
      readline_loop (fun line => cb line) output avail terminated
        ("check_output")) := by
  refine ⟨fun pred output avail funcName h => ?_, rfl,
    fun _ _ _ _ => rfl, fun _ _ _ _ => rfl, fun _ _ _ _ => rfl,
    fun _ _ _ _ => rfl, fun _ _ _ _ => rfl⟩
  rw [readline_loop_no_match pred output avail false funcName h]
  simp

/-- C6 witness: a concrete no-match stream times out with the 300 second
limit in the error. -/
theorem wait_ops_timeout_carries_configured_limit_witness :
    readline_loop (fun _ => false) [] ["info depth 1"] false ("equals") =
      ([] ++ [("info depth 1" : String)].map pyStrip,
        .error (.timeoutExpired (timeoutMessage ("equals") MAX_TIMEOUT)
          MAX_TIMEOUT)) :=
  wait_ops_timeout_carries_configured_limit.1 (fun _ => false) []
    ["info depth 1"] ("equals") (by decide)

/-- C7: if the child process exits before any delivered line matches, the
wait operation raises the process-terminated error (after printing the
retained output) instead of returning normally. -/
theorem wait_ops_raise_on_process_exit (pred : String → Bool)
    (output avail : List String) (funcName : String)
    (h : ∀ l ∈ avail, pred (pyStrip l) = false) :
    readline_loop pred output avail true funcName =
      (output ++ avail.map pyStrip,
        .error (.processTerminated (output ++ avail.map pyStrip))) := by
  rw [readline_loop_no_match pred output avail true funcName h]
  simp

/-- C7 witness: a concrete stream whose child exits without a match. -/
theorem wait_ops_raise_on_process_exit_witness :
    readline_loop (fun _ => false) ["early"] ["info depth 1"] true
        ("expect") =
      (["early"] ++ [("info depth 1" : String)].map pyStrip,
        .error (.processTerminated
          (["early"] ++ [("info depth 1" : String)].map pyStrip))) :=
  wait_ops_raise_on_process_exit (fun _ => false) ["early"]
    ["info depth 1"] ("expect") (by decide)

lemma readline_loop_fst (pred : String → Bool) (output avail : List String)
    (terminated : Bool) (funcName : String) :
    (readline_loop pred output avail terminated funcName).1 =
      output ++ specWaiterOutput pred (avail.map pyStrip) := by
  induction avail generalizing output with
  | nil => simp [readline_loop, specWaiterOutput]
  | cons raw rest ih =>
      by_cases hr : pred (pyStrip raw)
      · simp [readline_loop, hr, specWaiterOutput]
      · simp only [readline_loop, hr, Bool.false_eq_true, if_false,
          List.map_cons]
        rw [ih (output ++ [pyStrip raw])]
        simp [specWaiterOutput, hr]

/-- C9: every line a wait operation consumes is appended, stripped and in
arrival order, to the retained output log, whether or not it matched (the
log after the wait is the old log followed by the consumed prefix of the
stream); the log shrinks only through `clear_output`, which resets it to
empty, while `get_output` returns it unchanged. -/
theorem wait_ops_append_every_consumed_line (pred : String → Bool)
    (output avail : List String) (terminated : Bool) (funcName : String) :
    (readline_loop pred output avail terminated funcName).1 =
      output ++ specWaiterOutput pred (avail.map pyStrip) ∧
    clear_output output = [] ∧
    get_output output = output :=
  ⟨readline_loop_fst pred output avail terminated funcName, rfl, rfl⟩

/-! ## tests/testing.py: `MiniTestFramework`

The bespoke runner executes the `test_*` methods of each suite class in
declaration order, buffering each method's stdout (`redirect_stdout`).
What a method does is abstracted to its observable outcome (return
normally, raise `AssertionError`, raise `TimeoutException`, raise
something else) plus the lines it printed into the buffer; the runner's
own prints become an event trace (durations and colors elided, and the
optional `beforeAll`/`beforeEach`/`afterEach`/`afterAll` hooks are not
modelled — the claim concerns the failure path of the test methods). -/

/-- Observable behaviour of one `test_*` method body. -/
inductive MethodOutcome where
  | ok
  | assertionFailed
  | timedOut (limit : Nat)
  | raisedOther
deriving DecidableEq

/-- A test method: its name, what it prints into the redirected buffer,
and how it finishes. -/
structure TestMethod where
  name : String
  printed : List String
  outcome : MethodOutcome
deriving DecidableEq

/-- A test suite class: its name and its `test_*` methods in declaration
order (the order `OrderedClassMembers` preserves). -/
structure TestSuite where
  name : String
  methods : List TestMethod
deriving DecidableEq

/-- One line of runner output, abstracted. -/
inductive RunEvent where
  | running (method : String)
  | printSuccess (method : String)
  | printFailure (method : String)
  | tracebackFor (method : String)
  | bufferDump (lines : List String)
  | suiteHeader (suite : String)
  | errorCaught
deriving DecidableEq

/-- `__print_buffer_output`: prints the buffered lines only when the
buffer is non-empty. -/
def bufferDumpEvents (printed : List String) : List RunEvent :=
  if printed = [] then [] else [.bufferDump printed]

/-- `MiniTestFramework.__run_test_method` (`tests/testing.py`, lines
206-245): returns the printed events, the `passed_tests` increment, the
`fails` increment, and the re-raised exception (when `stop_on_failure`
holds, the caught exception is printed and re-raised before `fails` is
incremented; the `finally` block prints the buffer once more). -/
def run_test_method (stop_on_failure : Bool) (m : TestMethod) :
    List RunEvent × Nat × Nat × Option MethodOutcome :=
  match m.outcome with
  | .ok =>
      (.running m.name :: .printSuccess m.name ::
        bufferDumpEvents m.printed, 1, 0, none)
  | outcome =>
      let failureEvents :=
        match outcome with
        | .timedOut _ => [RunEvent.printFailure m.name]
        | .assertionFailed =>
            [RunEvent.printFailure m.name, RunEvent.tracebackFor m.name]
        | _ => []
      if stop_on_failure then
        (.running m.name ::
          (failureEvents ++ bufferDumpEvents m.printed ++
            bufferDumpEvents m.printed),
          0, 0, some outcome)
      else
        (.running m.name ::
          (failureEvents ++ bufferDumpEvents m.printed), 0, 1, none)

/-- The method loop of `MiniTestFramework.__run`: run the methods in
order, stopping when one re-raises. -/
def run_suite_methods (stop_on_failure : Bool) :
    List TestMethod → List RunEvent × Nat × Nat × Option MethodOutcome
  | [] => ([], 0, 0, none)
  | m :: rest =>
      let r := run_test_method stop_on_failure m
      match r.2.2.2 with
      | some e => (r.1, r.2.1, r.2.2.1, some e)
      | none =>
          let r2 := run_suite_methods stop_on_failure rest
          (r.1 ++ r2.1, r.2.1 + r2.2.1, r.2.2.1 + r2.2.2.1, r2.2.2.2)

/-- The counters of `MiniTestFramework` (`__init__`). -/
structure FrameworkState where
  passed_test_suites : Nat
  failed_test_suites : Nat
  passed_tests : Nat
  failed_tests : Nat
  stop_on_failure : Bool
deriving DecidableEq

/-- `MiniTestFramework.__init__`: zero counters, `stop_on_failure`
defaults to `True`. -/
def framework_init : FrameworkState :=
  { passed_test_suites := 0
    failed_test_suites := 0
    passed_tests := 0
    failed_tests := 0
    stop_on_failure := true }

/-- One iteration of the class loop of `MiniTestFramework.run`: run the
suite under `try`; a propagating exception marks the suite failed and
prints the error; otherwise the suite is failed iff some method failed. -/
def run_one_suite (st : FrameworkState) (suite : TestSuite) :
    List RunEvent × FrameworkState :=
  let r := run_suite_methods st.stop_on_failure suite.methods
  let evs := RunEvent.suiteHeader suite.name :: r.1
  match r.2.2.2 with
  | some _ =>
      (evs ++ [RunEvent.errorCaught],
        { st with
            failed_test_suites := st.failed_test_suites + 1
            passed_tests := st.passed_tests + r.2.1 })
  | none =>
      (evs,
        { st with
            passed_tests := st.passed_tests + r.2.1
            failed_tests := st.failed_tests + r.2.2.1
            failed_test_suites :=
              st.failed_test_suites + (if r.2.2.1 > 0 then 1 else 0)
            passed_test_suites :=
              st.passed_test_suites + (if r.2.2.1 > 0 then 0 else 1) })

/-- `MiniTestFramework.run` over the list of suite classes (summary
printing elided). -/
def framework_run (st : FrameworkState) :
    List TestSuite → List RunEvent × FrameworkState
  | [] => ([], st)
  | suite :: rest =>
      let r := run_one_suite st suite
      let r2 := framework_run r.2 rest
      (r.1 ++ r2.1, r2.2)

/-- `MiniTestFramework.has_failed`. -/
def has_failed (st : FrameworkState) : Bool := st.failed_test_suites > 0

/-- Events printed for a passing method. -/
def okMethodEvents (m : TestMethod) : List RunEvent :=
  .running m.name :: .printSuccess m.name :: bufferDumpEvents m.printed

/-- Events printed for a method failing an assertion under
`stop_on_failure`: the failure line, the trimmed traceback, and the
buffered output (which the source prints twice, once before re-raising
and once in `finally`). -/
def assertMethodEvents (m : TestMethod) : List RunEvent :=
  .running m.name :: .printFailure m.name :: .tracebackFor m.name ::
    (bufferDumpEvents m.printed ++ bufferDumpEvents m.printed)

lemma run_suite_methods_ok_then_assert (pre post : List TestMethod)
    (m : TestMethod) (hpre : ∀ x ∈ pre, x.outcome = .ok)
    (hm : m.outcome = .assertionFailed) :
    run_suite_methods true (pre ++ m :: post) =
      ((pre.map okMethodEvents).flatten ++ assertMethodEvents m,
        pre.length, 0, some .assertionFailed) := by
  induction pre with
  | nil =>
      simp only [List.nil_append, run_suite_methods, run_test_method, hm,
        List.map_nil, List.flatten_nil, List.length_nil]
      rfl
  | cons x rest ih =>
      have hx : x.outcome = .ok := hpre x (by simp)
      have hrest : ∀ y ∈ rest, y.outcome = .ok := fun y hy =>
        hpre y (by simp [hy])
      have hrec := ih hrest
      simp only [List.cons_append, run_suite_methods, run_test_method, hx]
      simp only [List.append_eq]
      rw [hrec]
      simp [okMethodEvents, Nat.add_comm]

/-- C8: with the default `stop_on_failure = True`, an assertion failure
in a test method is caught by the runner, reported with its buffered
output and trimmed traceback, and stops the suite: the methods after it
are never run, the whole run emits exactly the events up to and including
the failing method plus the runner's error print, the suite is counted
failed, and `has_failed` holds. -/
theorem assertion_failure_stops_suite (suiteName : String)
    (pre post : List TestMethod) (m : TestMethod)
    (hpre : ∀ x ∈ pre, x.outcome = .ok)
    (hm : m.outcome = .assertionFailed) :
    framework_run framework_init [⟨suiteName, pre ++ m :: post⟩] =
      (RunEvent.suiteHeader suiteName ::
        ((pre.map okMethodEvents).flatten ++ assertMethodEvents m ++
          [RunEvent.errorCaught]),
        { framework_init with
            failed_test_suites := 1
            passed_tests := pre.length }) ∧
    has_failed (framework_run framework_init
      [⟨suiteName, pre ++ m :: post⟩]).2 = true := by
  have hsm := run_suite_methods_ok_then_assert pre post m hpre hm
  constructor
  · simp only [framework_run, run_one_suite, framework_init, hsm]
    simp
  · simp only [framework_run, run_one_suite, framework_init, hsm]
    simp [has_failed]

/-- C8 witness: a concrete three-method suite whose second method fails
an assertion; the third is never run. -/
theorem assertion_failure_stops_suite_witness :
    framework_run framework_init
        [⟨"TestCLICommands",
          [⟨"test_a", [], .ok⟩, ⟨"test_b", ["boom"], .assertionFailed⟩,
            ⟨"test_c", [], .ok⟩]⟩] =
      (RunEvent.suiteHeader "TestCLICommands" ::
        (([⟨"test_a", [], MethodOutcome.ok⟩].map okMethodEvents).flatten ++
          assertMethodEvents ⟨"test_b", ["boom"], .assertionFailed⟩ ++
          [RunEvent.errorCaught]),
        { framework_init with
            failed_test_suites := 1
            passed_tests :=
              [(⟨"test_a", [], MethodOutcome.ok⟩ : TestMethod)].length }) ∧
    has_failed (framework_run framework_init
      [⟨"TestCLICommands",
        [⟨"test_a", [], .ok⟩, ⟨"test_b", ["boom"], .assertionFailed⟩,
          ⟨"test_c", [], .ok⟩]⟩]).2 = true :=
  assertion_failure_stops_suite "TestCLICommands"
    [⟨"test_a", [], .ok⟩] [⟨"test_c", [], .ok⟩]
    ⟨"test_b", ["boom"], .assertionFailed⟩ (by decide) rfl

/-! ## scripts/run_texel.py: `train_weights`

A training sample pairs the four oriented integer features with the game
result in `{0, 1/2, 1}`.  All float arithmetic is modelled exactly over
`ℚ`; the only transcendental operation, `math.exp` inside the logistic
`probability`, is a parameter `exp` of the embedding (its values are
irrelevant to the claims about the loop structure and output shape).
The source also binds an unused local `eps = 1e-9`, which has no
observable effect. -/

/-- A training sample: four integer features plus the result value. -/
abbrev Sample := (Int × Int × Int × Int) × ℚ

/-- `TrainingConfig` from `scripts/run_texel.py` (lines 304-309), with
its default values. -/
structure TrainingConfig where
  temperature : ℚ := 400
  learning_rate : ℚ := 1 / 10000
  epochs : Nat := 200
  l2 : ℚ := 1 / 1000000

/-- The feature tuple as the list the zip in the source walks. -/
def featList (f : Int × Int × Int × Int) : List ℚ :=
  [(f.1 : ℚ), (f.2.1 : ℚ), (f.2.2.1 : ℚ), (f.2.2.2 : ℚ)]

/-- Per-sample gradient accumulation of `train_weights`
(`scripts/run_texel.py`, lines 321-327). -/
def sampleGradStep (exp : ℚ → ℚ) (config : TrainingConfig)
    (weights : List ℚ) (grad : List ℚ) (sample : Sample) : List ℚ :=
  let features := featList sample.1
  let result := sample.2
  let evaluation := (List.zipWith (· * ·) weights features).sum
  let scaled := max (-2000) (min 2000 (evaluation / config.temperature))
  let probability := 1 / (1 + exp (-scaled))
  let diff := probability - result
  List.zipWith (fun g f => g + diff * f / config.temperature) grad features

/-- One epoch of batch gradient descent: accumulate the gradient over
the whole dataset, then apply the L2 term and the learning-rate update
(`scripts/run_texel.py`, lines 319-331). -/
def epochStep (exp : ℚ → ℚ) (dataset : List Sample)
    (config : TrainingConfig) (weights : List ℚ) : List ℚ :=
  let grad := dataset.foldl (sampleGradStep exp config weights)
    [0, 0, 0, 0]
  List.zipWith
    (fun w g =>
      w - config.learning_rate * (g / (dataset.length : ℚ) + config.l2 * w))
    weights grad

/-- `train_weights` (`scripts/run_texel.py`, lines 312-333): reject an
empty dataset (`ValueError`), otherwise run the epoch loop
`for _ in range(config.epochs)` starting from `[1.0, 1.0, 1.0, 1.0]`. -/
def train_weights (exp : ℚ → ℚ) (dataset : List Sample)
    (config : TrainingConfig) : Except String (List ℚ) :=
  if dataset = [] then
    .error ("Dataset is empty; cannot tune weights.")
  else
    .ok ((List.range config.epochs).foldl
      (fun weights _ => epochStep exp dataset config weights)
      [1, 1, 1, 1])

/-- The output scaling of `main` (`scripts/run_texel.py`, line 356):
`[int(round(w * 100)) for w in weights]`. -/
def scaled_weights (exp : ℚ → ℚ) (dataset : List Sample)
    (config : TrainingConfig) : Except String (List Int) :=
  (train_weights exp dataset config).map fun weights =>
    weights.map fun w => roundHalfEven (w * 100)

lemma foldl_ignore_range {α : Type} (f : α → α) (init : α) (n : Nat) :
    (List.range n).foldl (fun x _ => f x) init = f^[n] init := by
  induction n with
  | zero => simp
  | succ k ih =>
      rw [List.range_succ, List.foldl_append, ih,
        Function.iterate_succ_apply']
      rfl

lemma sampleGradStep_length (exp : ℚ → ℚ) (config : TrainingConfig)
    (weights grad : List ℚ) (sample : Sample) (h : grad.length = 4) :
    (sampleGradStep exp config weights grad sample).length = 4 := by
  simp [sampleGradStep, featList, h]

lemma grad_foldl_length (exp : ℚ → ℚ) (config : TrainingConfig)
    (weights : List ℚ) (dataset : List Sample) (grad : List ℚ)
    (h : grad.length = 4) :
    (dataset.foldl (sampleGradStep exp config weights) grad).length = 4 := by
  induction dataset generalizing grad with
  | nil => simpa using h
  | cons s rest ih =>
      simp only [List.foldl_cons]
      exact ih _ (sampleGradStep_length exp config weights grad s h)

lemma epochStep_length (exp : ℚ → ℚ) (dataset : List Sample)
    (config : TrainingConfig) (weights : List ℚ)
    (h : weights.length = 4) :
    (epochStep exp dataset config weights).length = 4 := by
  simp only [epochStep, List.length_zipWith, h,
    grad_foldl_length exp config weights dataset [0, 0, 0, 0] (by simp)]
  omega

lemma epochIterate_length (exp : ℚ → ℚ) (dataset : List Sample)
    (config : TrainingConfig) (n : Nat) :
    ((epochStep exp dataset config)^[n] [1, 1, 1, 1]).length = 4 := by
  induction n with
  | zero => simp
  | succ k ih =>
      rw [Function.iterate_succ_apply']
      exact epochStep_length exp dataset config _ ih

/-- C5: on a non-empty dataset `train_weights` performs exactly
`config.epochs` batch gradient-descent passes — its result is the
`config.epochs`-fold iterate of the single-epoch step, with no
convergence check that could cut the loop short — and returns exactly
four weights; the program's output weights are those weights multiplied
by 100 and rounded to the nearest integer. -/
theorem train_weights_runs_configured_epochs (exp : ℚ → ℚ)
    (dataset : List Sample) (config : TrainingConfig)
    (h : dataset ≠ []) :
    ∃ ws, train_weights exp dataset config = .ok ws ∧
      ws = (epochStep exp dataset config)^[config.epochs] [1, 1, 1, 1] ∧
      ws.length = 4 ∧
      scaled_weights exp dataset config =
        .ok (ws.map fun w => roundHalfEven (w * 100)) := by
  refine ⟨(epochStep exp dataset config)^[config.epochs] [1, 1, 1, 1],
    ?_, rfl, epochIterate_length exp dataset config config.epochs, ?_⟩
  · rw [train_weights, if_neg h, foldl_ignore_range]
  · rw [scaled_weights, train_weights, if_neg h, foldl_ignore_range]
    rfl

/-- C5 witness: the theorem evaluated on a one-sample dataset with two
epochs (and the modelled `exp` constantly one). -/
theorem train_weights_runs_configured_epochs_witness :
    ∃ ws,
      train_weights (fun _ => 1) [((1, 0, 0, 0), 1)]
          { temperature := 400, learning_rate := 1 / 10000, epochs := 2,
            l2 := 1 / 1000000 } = .ok ws ∧
      ws = (epochStep (fun _ => 1) [((1, 0, 0, 0), 1)]
          { temperature := 400, learning_rate := 1 / 10000, epochs := 2,
            l2 := 1 / 1000000 })^[2] [1, 1, 1, 1] ∧
      ws.length = 4 ∧
      scaled_weights (fun _ => 1) [((1, 0, 0, 0), 1)]
          { temperature := 400, learning_rate := 1 / 10000, epochs := 2,
            l2 := 1 / 1000000 } =
        .ok (ws.map fun w => roundHalfEven (w * 100)) :=
  train_weights_runs_configured_epochs (fun _ => 1) [((1, 0, 0, 0), 1)]
    { temperature := 400, learning_rate := 1 / 10000, epochs := 2,
      l2 := 1 / 1000000 } (by simp)

/-! ## scripts/run_texel.py: board geometry and the four features

The `python-chess` board is embedded as a piece assignment on the 64
squares plus the side to move.  A square is a file and a rank, each
`Fin 8` (`chess.square_file` / `chess.square_rank`); `chess.square_mirror`
flips the rank.  The attack primitives used by the features
(`board.attacks`, `board.attackers`, `chess.BB_BETWEEN`,
`chess.square_distance`, `chess.BB_KING_ATTACKS`) are reproduced from
their bitboard semantics: sliding attacks reach along a rook or bishop
line whose strictly-between squares are empty. -/

/-- Side / piece colour. -/
inductive Color where
  | white
  | black
deriving DecidableEq

/-- `not color` on python-chess colours. -/
def Color.other : Color → Color
  | .white => .black
  | .black => .white

/-- The six piece types. -/
inductive PieceType where
  | pawn
  | knight
  | bishop
  | rook
  | queen
  | king
deriving DecidableEq

/-- A coloured piece. -/
structure Piece where
  color : Color
  piece_type : PieceType
deriving DecidableEq

/-- A board square, as file (0 = a … 7 = h) and rank (0 = 1 … 7 = 8). -/
structure Square where
  file : Fin 8
  rank : Fin 8
deriving DecidableEq

/-- Squares are in bijection with file-rank pairs. -/
def squareEquiv : Square ≃ Fin 8 × Fin 8 where
  toFun s := (s.file, s.rank)
  invFun p := ⟨p.1, p.2⟩
  left_inv s := rfl
  right_inv p := rfl

instance : Fintype Square := Fintype.ofEquiv (Fin 8 × Fin 8) squareEquiv.symm

/-- `chess.square_mirror`: flip the rank, keep the file. -/
def Square.vmirror (s : Square) : Square := ⟨s.file, s.rank.rev⟩

/-- File distance as a natural number. -/
def fileDiff (a b : Square) : Nat :=
  (((a.file : Nat) : Int) - ((b.file : Nat) : Int)).natAbs

/-- Rank distance as a natural number. -/
def rankDiff (a b : Square) : Nat :=
  (((a.rank : Nat) : Int) - ((b.rank : Nat) : Int)).natAbs

/-- `chess.square_distance`: Chebyshev distance. -/
def square_distance (a b : Square) : Nat := max (fileDiff a b) (rankDiff a b)

/-- A rook line between two distinct squares (same file or same rank). -/
def rookLine (a b : Square) : Bool :=
  (a.file == b.file || a.rank == b.rank) && a != b

/-- A bishop line between two distinct squares (equal coordinate
distances). -/
def diagLine (a b : Square) : Bool :=
  fileDiff a b == rankDiff a b && a != b

/-- Membership in `chess.BB_BETWEEN[a][b]`: `t` lies strictly between `a`
and `b` on a shared rook or bishop line (collinear with both, inside the
bounding box, distinct from the endpoints). -/
def betweenPred (a b t : Square) : Prop :=
  (rookLine a b || diagLine a b) = true ∧ t ≠ a ∧ t ≠ b ∧
  (((t.file : Nat) : Int) - ((a.file : Nat) : Int)) *
      (((b.rank : Nat) : Int) - ((a.rank : Nat) : Int)) =
    (((t.rank : Nat) : Int) - ((a.rank : Nat) : Int)) *
      (((b.file : Nat) : Int) - ((a.file : Nat) : Int)) ∧
  min (a.file : Nat) (b.file : Nat) ≤ (t.file : Nat) ∧
  (t.file : Nat) ≤ max (a.file : Nat) (b.file : Nat) ∧
  min (a.rank : Nat) (b.rank : Nat) ≤ (t.rank : Nat) ∧
  (t.rank : Nat) ≤ max (a.rank : Nat) (b.rank : Nat)

instance (a b t : Square) : Decidable (betweenPred a b t) :=
  inferInstanceAs (Decidable (_ ∧ _ ∧ _ ∧ _ ∧ _ ∧ _ ∧ _ ∧ _))

/-- `chess.BB_BETWEEN[a][b]` as a square set. -/
def bbBetween (a b : Square) : Finset Square :=
  Finset.univ.filter (betweenPred a b ·)

/-- A knight move between two squares. -/
def knightMove (a b : Square) : Bool :=
  (fileDiff a b == 1 && rankDiff a b == 2) ||
    (fileDiff a b == 2 && rankDiff a b == 1)

/-- A king move between two squares (`chess.BB_KING_ATTACKS`). -/
def kingMove (a b : Square) : Bool := square_distance a b == 1

/-- A pawn of colour `c` on `a` attacks `b` (diagonally forward). -/
def pawnCaptureMove (c : Color) (a b : Square) : Bool :=
  fileDiff a b == 1 &&
    (if c = .white then (b.rank : Nat) == (a.rank : Nat) + 1
     else (b.rank : Nat) + 1 == (a.rank : Nat))

/-- `relative_rank` (`scripts/run_texel.py`, lines 52-54). -/
def relative_rank (color : Color) (square : Square) : Nat :=
  if color = .white then (square.rank : Nat) else 7 - (square.rank : Nat)

/-- Membership in the square list built by `forward_span`
(`scripts/run_texel.py`, lines 57-69): every square strictly ahead of
`square` from `color`'s point of view whose file differs by at most
one. -/
def forward_span_pred (color : Color) (square t : Square) : Prop :=
  ((t.file : Nat) ≤ (square.file : Nat) + 1 ∧
    (square.file : Nat) ≤ (t.file : Nat) + 1) ∧
  (if color = .white then (square.rank : Nat) < (t.rank : Nat)
   else (t.rank : Nat) < (square.rank : Nat))

instance (color : Color) (square t : Square) :
    Decidable (forward_span_pred color square t) :=
  inferInstanceAs (Decidable (_ ∧ _))

/-- `forward_span` as a square set. -/
def forward_span (color : Color) (square : Square) : Finset Square :=
  Finset.univ.filter (forward_span_pred color square ·)

/-- Membership in the square list built by `king_shield_squares`
(`scripts/run_texel.py`, lines 77-89): one or two ranks ahead, file
within one. -/
def king_shield_pred (color : Color) (square t : Square) : Prop :=
  ((t.file : Nat) ≤ (square.file : Nat) + 1 ∧
    (square.file : Nat) ≤ (t.file : Nat) + 1) ∧
  (if color = .white then
    (t.rank : Nat) = (square.rank : Nat) + 1 ∨
      (t.rank : Nat) = (square.rank : Nat) + 2
   else
    (t.rank : Nat) + 1 = (square.rank : Nat) ∨
      (t.rank : Nat) + 2 = (square.rank : Nat))

instance (color : Color) (square t : Square) :
    Decidable (king_shield_pred color square t) :=
  inferInstanceAs (Decidable (_ ∧ _))

/-- `king_shield_squares` as a square set. -/
def king_shield_squares (color : Color) (square : Square) : Finset Square :=
  Finset.univ.filter (king_shield_pred color square ·)

/-- A chess position: piece assignment plus side to move. -/
structure Board where
  piece_at : Square → Option Piece
  turn : Color

/-- Swap a piece's colour. -/
def Piece.swapColor (p : Piece) : Piece := ⟨p.color.other, p.piece_type⟩

/-- The colour-reversed vertical mirror of a position with the side to
move flipped: the piece on the mirrored square with the opposite colour,
as produced by `board.mirror()` in python-chess. -/
def Board.colorMirror (b : Board) : Board where
  piece_at s := (b.piece_at s.vmirror).map Piece.swapColor
  turn := b.turn.other

/-- `board.pieces(piece_type, color)`. -/
def Board.pieces (b : Board) (pt : PieceType) (c : Color) : Finset Square :=
  Finset.univ.filter fun s => b.piece_at s = some ⟨c, pt⟩

/-- `board.color_at(square)`. -/
def Board.color_at (b : Board) (s : Square) : Option Color :=
  (b.piece_at s).map Piece.color

/-- The index `chess.square(file, rank)` of a square. -/
def Square.index (s : Square) : Nat := 8 * (s.rank : Nat) + (s.file : Nat)

lemma Square.index_injective : Function.Injective Square.index := by
  intro a b h
  simp only [Square.index] at h
  have hf : (a.file : Nat) = b.file := by omega
  have hr : (a.rank : Nat) = b.rank := by omega
  cases a; cases b
  simp_all [Fin.val_inj]

instance : LinearOrder Square :=
  LinearOrder.lift' Square.index Square.index_injective

/-- `board.king(color)`: the square of the colour's king bitboard (the
most significant bit when present); `none` when the colour has no king. -/
def Board.king (b : Board) (c : Color) : Option Square :=
  if h : (b.pieces .king c).Nonempty then some ((b.pieces .king c).max' h)
  else none

/-- `is_passed_pawn` (`scripts/run_texel.py`, lines 72-74): no enemy pawn
in the forward span. -/
def is_passed_pawn (b : Board) (color : Color) (square : Square) : Prop :=
  ∀ t ∈ forward_span color square, t ∉ b.pieces .pawn color.other

instance (b : Board) (color : Color) (square : Square) :
    Decidable (is_passed_pawn b color square) :=
  inferInstanceAs (Decidable (∀ t ∈ forward_span color square,
    t ∉ b.pieces .pawn color.other))

/-- `board.attacks(src)` reaches `dst`: pattern attack for pawn, knight
and king; rook/bishop line with empty strictly-between squares for the
sliding pieces. -/
def attacksSquare (b : Board) (src dst : Square) : Bool :=
  match b.piece_at src with
  | none => false
  | some p =>
      match p.piece_type with
      | .pawn => pawnCaptureMove p.color src dst
      | .knight => knightMove src dst
      | .king => kingMove src dst
      | .bishop =>
          diagLine src dst &&
            decide (∀ u ∈ bbBetween src dst, b.piece_at u = none)
      | .rook =>
          rookLine src dst &&
            decide (∀ u ∈ bbBetween src dst, b.piece_at u = none)
      | .queen =>
          (diagLine src dst || rookLine src dst) &&
            decide (∀ u ∈ bbBetween src dst, b.piece_at u = none)

/-- `board.attacks(src)` as a square set. -/
def Board.attacks (b : Board) (src : Square) : Finset Square :=
  Finset.univ.filter fun dst => attacksSquare b src dst = true

/-- `board.attackers(color, dst)`: the squares of `color`'s pieces whose
attacks reach `dst`. -/
def Board.attackers (b : Board) (c : Color) (dst : Square) : Finset Square :=
  Finset.univ.filter fun src =>
    b.color_at src = some c ∧ attacksSquare b src dst = true

/-- The base square of a king-side flank pattern, mirrored for Black
(`chess.square_mirror(base)` in the source). -/
def flank_square (color : Color) (s : Square) : Square :=
  if color = .black then s.vmirror else s

/-- `king_safety_for` (`scripts/run_texel.py`, lines 92-145): pawn-shield,
pawn-storm, open-file, file-slider and flank-pattern penalties around the
king, relieved by six when no enemy piece stands on the king ring. -/
def king_safety_body (b : Board) (color : Color) (king_square : Square) :
    ℤ :=
      let pawns := b.pieces .pawn color
      let shield_count :=
        ((king_shield_squares color king_square).filter (· ∈ pawns)).card
      let shieldPenalty : ℤ :=
        if shield_count < 2 then ((2 - shield_count : Nat) : ℤ) * 10 else 0
      let stormPenalty : ℤ :=
        ∑ sq ∈ pawns,
          if fileDiff sq king_square ≤ 1 ∧ 3 < relative_rank color sq then
            6 * ((relative_rank color sq - 3 : Nat) : ℤ)
          else 0
      let forward_file :=
        (forward_span color king_square).filter
          fun sq => sq.file = king_square.file
      let openFilePenalty : ℤ :=
        if ∀ sq ∈ forward_file, sq ∉ pawns then 18 else 0
      let enemy_sliders :=
        b.pieces .rook color.other ∪ b.pieces .queen color.other
      let sliderPenalty : ℤ :=
        if ∃ slider ∈ enemy_sliders,
            slider.file = king_square.file ∧
            (bbBetween slider king_square).Nonempty ∧
            ∀ u ∈ bbBetween slider king_square,
              ¬ b.color_at u = some color then
          12
        else 0
      let flankPenalty : ℤ :=
        if (flank_square color ⟨6, 3⟩ ∈ pawns ∧
              flank_square color ⟨7, 3⟩ ∈ pawns) ∨
            (flank_square color ⟨6, 4⟩ ∈ pawns ∧
              flank_square color ⟨7, 5⟩ ∈ pawns) then
          14
        else 0
      let penalty :=
        shieldPenalty + stormPenalty + openFilePenalty + sliderPenalty +
          flankPenalty
      let ring_attackers :=
        ((Finset.univ.filter fun sq => kingMove king_square sq = true).filter
          fun sq => (b.piece_at sq).isSome ∧
            ¬ b.color_at sq = some color).card
      if ring_attackers = 0 ∧ 0 < penalty then max 0 (penalty - 6)
      else penalty

/-- `king_safety_for` returns 0 for a position without the colour's king
(`if king_square is None: return 0`) and the accumulated penalty
otherwise. -/
def king_safety_for (b : Board) (color : Color) : ℤ :=
  match b.king color with
  | none => 0
  | some king_square => king_safety_body b color king_square

/-- The `rank_bonus` table of `passed_pawn_score`. -/
def rank_bonus : List ℤ := [0, 0, 12, 28, 44, 68, 110, 0]

/-- The square in front of a pawn (`sq ± 8` with the
`chess.A1 <= block_sq <= chess.H8` bound of the source). -/
def blockSquare (color : Color) (sq : Square) : Option Square :=
  if color = .white then
    if h : (sq.rank : Nat) + 1 ≤ 7 then
      some ⟨sq.file, ⟨(sq.rank : Nat) + 1, by omega⟩⟩
    else none
  else
    if h : 1 ≤ (sq.rank : Nat) then
      some ⟨sq.file, ⟨(sq.rank : Nat) - 1, by omega⟩⟩
    else none

/-- The bonus one passed pawn contributes in `passed_pawn_score`
(`scripts/run_texel.py`, lines 152-180). -/
def passedPawnBonus (b : Board) (color : Color) (sq : Square) : ℤ :=
  let rel_rank := relative_rank color sq
  let base := rank_bonus.getD rel_rank 0
  let blockPart : ℤ :=
    match blockSquare color sq with
    | none => 0
    | some block_sq =>
        let attackers_us := (b.attackers color block_sq).card
        let attackers_them := (b.attackers color.other block_sq).card
        let d : ℤ := (attackers_us : ℤ) - (attackers_them : ℤ)
        let pieceCase : ℤ :=
          match b.piece_at block_sq with
          | none => 6 + 2 * (rel_rank : ℤ) + max d 0 * 4
          | some piece =>
              if piece.color = color then 4 else -6 + d * 5
        pieceCase + (if 1 < d then d * 3 else 0)
  let kingPart : ℤ :=
    match b.king color.other with
    | none => 0
    | some enemy_king =>
        if 5 ≤ rel_rank ∧ 3 < square_distance enemy_king sq then 18 else 0
  base + blockPart + kingPart

/-- `passed_pawn_score` (`scripts/run_texel.py`, lines 148-182): sum the
bonus over the colour's passed pawns. -/
def passed_pawn_score (b : Board) (color : Color) : ℤ :=
  ∑ sq ∈ (b.pieces .pawn color).filter (is_passed_pawn b color ·),
    passedPawnBonus b color sq

/-- The four central squares d4, e4, d5, e5. -/
def centralSquares : Finset Square :=
  {⟨3, 3⟩, ⟨4, 3⟩, ⟨3, 4⟩, ⟨4, 4⟩}

/-- The penalty one knight contributes in `knight_mobility`
(`scripts/run_texel.py`, lines 188-209); the central-square bonus enters
negated. -/
def knightPenalty (b : Board) (color : Color) (sq : Square) : ℤ :=
  let mobility :=
    ((b.attacks sq).filter fun dst => ¬ b.color_at dst = some color).card
  let lowMobility : ℤ := ((3 - mobility : Nat) : ℤ) * 6
  let trapped : ℤ := if mobility ≤ 1 then 10 else 0
  let edge : ℤ :=
    if (sq.file : Nat) = 0 ∨ (sq.file : Nat) = 7 ∨
        relative_rank color sq = 0 ∨ relative_rank color sq = 7 then 6
    else 0
  let centralPart : ℤ :=
    if sq ∈ centralSquares then
      -(14 +
        (if (∃ t ∈ b.attackers color sq,
              b.piece_at t = some ⟨color, .pawn⟩) then 6 else 0) +
        (if b.attackers color.other sq = ∅ then 4 else 0))
    else 0
  lowMobility + trapped + edge + centralPart

/-- `knight_mobility` (`scripts/run_texel.py`, lines 185-211): the
negated sum of the per-knight penalties. -/
def knight_mobility (b : Board) (color : Color) : ℤ :=
  ∑ sq ∈ b.pieces .knight color, -(knightPenalty b color sq)

/-- The `center_bonus` helper of `pawn_endgame_feature`
(`scripts/run_texel.py`, lines 227-230). -/
def center_bonus (king : Square) : ℤ :=
  let df := min (((king.file : Nat) : Int) - 3).natAbs
    (((king.file : Nat) : Int) - 4).natAbs
  let dr := min (((king.rank : Nat) : Int) - 3).natAbs
    (((king.rank : Nat) : Int) - 4).natAbs
  18 - 6 * ((df + dr : Nat) : ℤ)

/-- `pawn_endgame_feature` (`scripts/run_texel.py`, lines 214-251): zero
unless only kings and pawns remain; otherwise king centralisation,
passed-pawn king proximity for both colours, and the opposition term
keyed to the side to move. -/
def pawn_endgame_feature (b : Board) : ℤ :=
  let non_pawn :=
    b.pieces .bishop .white ∪ b.pieces .bishop .black ∪
      b.pieces .knight .white ∪ b.pieces .knight .black ∪
      b.pieces .rook .white ∪ b.pieces .rook .black ∪
      b.pieces .queen .white ∪ b.pieces .queen .black
  if non_pawn.Nonempty then 0
  else
    match b.king .white, b.king .black with
    | some king_w, some king_b =>
        let base := center_bonus king_w - center_bonus king_b
        let whitePart : ℤ :=
          ∑ sq ∈ (b.pieces .pawn .white).filter (is_passed_pawn b .white ·),
            (max 0 (6 - (square_distance king_w sq : ℤ)) * 4 -
              (square_distance king_b sq : ℤ) * 6)
        let blackPart : ℤ :=
          ∑ sq ∈ (b.pieces .pawn .black).filter (is_passed_pawn b .black ·),
            (-(max 0 (6 - (square_distance king_b sq : ℤ)) * 4) +
              (square_distance king_w sq : ℤ) * 6)
        let opposition : ℤ :=
          if (king_w.file = king_b.file ∨ king_w.rank = king_b.rank) ∧
              square_distance king_w king_b = 2 then
            if b.turn = .white then -12 else 12
          else 0
        base + whitePart + blackPart + opposition
    | _, _ => 0

/-- `feature_vector` (`scripts/run_texel.py`, lines 254-259): the four
white-minus-black feature differentials. -/
def feature_vector (b : Board) : ℤ × ℤ × ℤ × ℤ :=
  (king_safety_for b .white - king_safety_for b .black,
    passed_pawn_score b .white - passed_pawn_score b .black,
    knight_mobility b .white - knight_mobility b .black,
    pawn_endgame_feature b)

/-- Componentwise negation of a feature tuple. -/
def neg4 (f : ℤ × ℤ × ℤ × ℤ) : ℤ × ℤ × ℤ × ℤ :=
  (-f.1, -f.2.1, -f.2.2.1, -f.2.2.2)

/-- `orientation` (`scripts/run_texel.py`, lines 262-265): negate all
features when Black is to move. -/
def orientation (b : Board) (features : ℤ × ℤ × ℤ × ℤ) : ℤ × ℤ × ℤ × ℤ :=
  if b.turn = .white then features else neg4 features

/-! ### Mirror equivariance of the square geometry -/

lemma Square.vmirror_vmirror (s : Square) : s.vmirror.vmirror = s := by
  cases s with
  | mk f r => simp [Square.vmirror, Fin.rev_rev]

@[simp]
lemma Square.vmirror_eq_iff (a b : Square) :
    a.vmirror = b.vmirror ↔ a = b := by
  constructor
  · intro h
    have h2 := congrArg Square.vmirror h
    rwa [Square.vmirror_vmirror, Square.vmirror_vmirror] at h2
  · intro h
    rw [h]

lemma Square.vmirror_injective : Function.Injective Square.vmirror :=
  fun _ _ h => (Square.vmirror_eq_iff _ _).mp h

@[simp]
lemma Color.other_other (c : Color) : c.other.other = c := by
  cases c <;> rfl

@[simp]
lemma Square.vmirror_file (s : Square) : s.vmirror.file = s.file := rfl

lemma Square.vmirror_rank_val (s : Square) :
    (s.vmirror.rank : Nat) = 7 - (s.rank : Nat) := by
  simp only [Square.vmirror, Fin.val_rev]
  omega

lemma fileDiff_vmirror (a b : Square) :
    fileDiff a.vmirror b.vmirror = fileDiff a b := rfl

lemma rankDiff_vmirror (a b : Square) :
    rankDiff a.vmirror b.vmirror = rankDiff a b := by
  have ha := a.rank.isLt
  have hb := b.rank.isLt
  simp only [rankDiff, Square.vmirror_rank_val]
  omega

lemma square_distance_vmirror (a b : Square) :
    square_distance a.vmirror b.vmirror = square_distance a b := by
  simp [square_distance, fileDiff_vmirror, rankDiff_vmirror]

lemma knightMove_vmirror (a b : Square) :
    knightMove a.vmirror b.vmirror = knightMove a b := by
  simp only [knightMove, fileDiff_vmirror, rankDiff_vmirror]

lemma kingMove_vmirror (a b : Square) :
    kingMove a.vmirror b.vmirror = kingMove a b := by
  simp only [kingMove, square_distance_vmirror]

@[simp]
lemma Square.vmirror_rank (s : Square) : s.vmirror.rank = s.rank.rev := rfl

lemma rookLine_vmirror (a b : Square) :
    rookLine a.vmirror b.vmirror = rookLine a b := by
  rw [Bool.eq_iff_iff]
  simp only [rookLine, Bool.and_eq_true, Bool.or_eq_true, beq_iff_eq,
    bne_iff_ne, ne_eq, Square.vmirror_file, Square.vmirror_rank,
    Fin.rev_inj, Square.vmirror_eq_iff]

lemma diagLine_vmirror (a b : Square) :
    diagLine a.vmirror b.vmirror = diagLine a b := by
  rw [Bool.eq_iff_iff]
  simp only [diagLine, Bool.and_eq_true, beq_iff_eq, bne_iff_ne, ne_eq,
    fileDiff_vmirror, rankDiff_vmirror, Square.vmirror_eq_iff]

lemma pawnCaptureMove_vmirror (c : Color) (a b : Square) :
    pawnCaptureMove c.other a.vmirror b.vmirror = pawnCaptureMove c a b := by
  have ha := a.rank.isLt
  have hb := b.rank.isLt
  rw [Bool.eq_iff_iff]
  cases c <;>
    · simp only [pawnCaptureMove, Color.other, fileDiff_vmirror,
        Square.vmirror_rank_val, Bool.and_eq_true, beq_iff_eq,
        if_true, if_false, reduceCtorEq, reduceIte]
      try omega

lemma relative_rank_vmirror (c : Color) (s : Square) :
    relative_rank c.other s.vmirror = relative_rank c s := by
  have hs := s.rank.isLt
  cases c <;>
    · simp only [relative_rank, Color.other, Square.vmirror_rank_val,
        reduceCtorEq, reduceIte]
      try omega

lemma forward_span_pred_vmirror (c : Color) (s t : Square) :
    forward_span_pred c.other s.vmirror t.vmirror ↔
      forward_span_pred c s t := by
  have hs := s.rank.isLt
  have ht := t.rank.isLt
  cases c <;>
    · simp only [forward_span_pred, Color.other, Square.vmirror_file,
        Square.vmirror_rank_val, reduceCtorEq, reduceIte]
      try omega

lemma king_shield_pred_vmirror (c : Color) (s t : Square) :
    king_shield_pred c.other s.vmirror t.vmirror ↔
      king_shield_pred c s t := by
  have hs := s.rank.isLt
  have ht := t.rank.isLt
  cases c <;>
    · simp only [king_shield_pred, Color.other, Square.vmirror_file,
        Square.vmirror_rank_val, reduceCtorEq, reduceIte]
      try omega

lemma betweenPred_vmirror (a b t : Square) :
    betweenPred a.vmirror b.vmirror t.vmirror ↔ betweenPred a b t := by
  have ha := a.rank.isLt
  have hb := b.rank.isLt
  have ht := t.rank.isLt
  unfold betweenPred
  rw [rookLine_vmirror, diagLine_vmirror]
  refine and_congr Iff.rfl ?_
  simp only [ne_eq, Square.vmirror_eq_iff]
  refine and_congr Iff.rfl (and_congr Iff.rfl ?_)
  refine and_congr ?_ ?_
  · have hfa : ((a.vmirror.file : Nat) : Int) = ((a.file : Nat) : Int) := rfl
    have hfb : ((b.vmirror.file : Nat) : Int) = ((b.file : Nat) : Int) := rfl
    have hft : ((t.vmirror.file : Nat) : Int) = ((t.file : Nat) : Int) := rfl
    have hra : ((a.vmirror.rank : Nat) : Int) = 7 - ((a.rank : Nat) : Int) := by
      rw [Square.vmirror_rank_val]; omega
    have hrb : ((b.vmirror.rank : Nat) : Int) = 7 - ((b.rank : Nat) : Int) := by
      rw [Square.vmirror_rank_val]; omega
    have hrt : ((t.vmirror.rank : Nat) : Int) = 7 - ((t.rank : Nat) : Int) := by
      rw [Square.vmirror_rank_val]; omega
    rw [hfa, hfb, hft, hra, hrb, hrt,
      show (((t.file : Nat) : Int) - ((a.file : Nat) : Int)) *
          ((7 - ((b.rank : Nat) : Int)) - (7 - ((a.rank : Nat) : Int))) =
        -((((t.file : Nat) : Int) - ((a.file : Nat) : Int)) *
          (((b.rank : Nat) : Int) - ((a.rank : Nat) : Int))) from by ring,
      show ((7 - ((t.rank : Nat) : Int)) - (7 - ((a.rank : Nat) : Int))) *
          (((b.file : Nat) : Int) - ((a.file : Nat) : Int)) =
        -((((t.rank : Nat) : Int) - ((a.rank : Nat) : Int)) *
          (((b.file : Nat) : Int) - ((a.file : Nat) : Int))) from by ring,
      neg_inj]
  · simp only [Square.vmirror_file, Square.vmirror_rank_val]
    omega

lemma centralSquares_vmirror (s : Square) :
    s.vmirror ∈ centralSquares ↔ s ∈ centralSquares := by
  revert s
  decide

lemma flank_square_other (c : Color) (x : Square) :
    flank_square c.other x = (flank_square c x).vmirror := by
  cases c <;> simp [flank_square, Color.other, Square.vmirror_vmirror]

lemma blockSquare_vmirror (c : Color) (s : Square) :
    blockSquare c.other s.vmirror = (blockSquare c s).map Square.vmirror := by
  obtain ⟨f, r⟩ := s
  have hr := r.isLt
  cases c <;>
    · simp only [blockSquare, Color.other, reduceCtorEq, reduceIte,
        Square.vmirror, Fin.val_rev]
      split_ifs with h1 h2 h2 <;>
        first
        | (exfalso; omega)
        | rfl
        | (simp only [Option.map_some', Option.map_none', Option.some.injEq,
            Square.vmirror, Square.mk.injEq, Fin.rev, Fin.mk.injEq, true_and]
           omega)

lemma center_bonus_vmirror (k : Square) :
    center_bonus k.vmirror = center_bonus k := by
  have hk := k.rank.isLt
  simp only [center_bonus, Square.vmirror_file, Square.vmirror_rank_val]
  omega

/-! ### Mirror equivariance of the board primitives -/

lemma mem_image_vmirror (S : Finset Square) (t : Square) :
    t ∈ S.image Square.vmirror ↔ t.vmirror ∈ S := by
  simp only [Finset.mem_image]
  constructor
  · rintro ⟨u, hu, rfl⟩
    rwa [Square.vmirror_vmirror]
  · intro h
    exact ⟨t.vmirror, h, Square.vmirror_vmirror t⟩

lemma filter_univ_vmirror (p : Square → Prop) [DecidablePred p] :
    (Finset.univ.filter p).image Square.vmirror =
      Finset.univ.filter (fun t => p t.vmirror) := by
  ext t
  rw [mem_image_vmirror]
  simp only [Finset.mem_filter, Finset.mem_univ, true_and]

lemma card_filter_univ_vmirror (p : Square → Prop) [DecidablePred p] :
    (Finset.univ.filter fun t : Square => p t.vmirror).card =
      (Finset.univ.filter p).card := by
  rw [← filter_univ_vmirror]
  exact Finset.card_image_of_injective _ Square.vmirror_injective

/-- The vertical mirror as a permutation of the squares. -/
def vmirrorEquiv : Square ≃ Square where
  toFun := Square.vmirror
  invFun := Square.vmirror
  left_inv := Square.vmirror_vmirror
  right_inv := Square.vmirror_vmirror

lemma sum_univ_vmirror {β : Type} [AddCommMonoid β] (f : Square → β) :
    ∑ s : Square, f s.vmirror = ∑ s : Square, f s :=
  Equiv.sum_comp vmirrorEquiv f

lemma Color.other_eq_iff (a c : Color) : a.other = c ↔ a = c.other := by
  cases a <;> cases c <;> simp [Color.other]

lemma map_swapColor_eq_some (o : Option Piece) (c : Color) (pt : PieceType) :
    o.map Piece.swapColor = some ⟨c, pt⟩ ↔ o = some ⟨c.other, pt⟩ := by
  cases o with
  | none => simp
  | some p =>
      obtain ⟨pc, ppt⟩ := p
      simp only [Option.map_some', Option.some.injEq, Piece.swapColor,
        Piece.mk.injEq]
      rw [Color.other_eq_iff]

lemma map_other_eq_some (o : Option Color) (c : Color) :
    o.map Color.other = some c ↔ o = some c.other := by
  cases o with
  | none => simp
  | some d =>
      simp only [Option.map_some', Option.some.injEq]
      rw [Color.other_eq_iff]

lemma pieces_colorMirror (bd : Board) (pt : PieceType) (c : Color) :
    bd.colorMirror.pieces pt c =
      (bd.pieces pt c.other).image Square.vmirror := by
  rw [Board.pieces, Board.pieces, filter_univ_vmirror]
  apply Finset.filter_congr
  intro t _
  show bd.colorMirror.piece_at t = some ⟨c, pt⟩ ↔ _
  rw [show bd.colorMirror.piece_at t =
      (bd.piece_at t.vmirror).map Piece.swapColor from rfl,
    map_swapColor_eq_some]

lemma color_at_colorMirror (bd : Board) (s : Square) :
    bd.colorMirror.color_at s = (bd.color_at s.vmirror).map Color.other := by
  have h : bd.colorMirror.piece_at s =
      (bd.piece_at s.vmirror).map Piece.swapColor := rfl
  rw [Board.color_at, Board.color_at, h, Option.map_map, Option.map_map]
  rfl

lemma piece_at_colorMirror_eq_none (bd : Board) (s : Square) :
    bd.colorMirror.piece_at s = none ↔ bd.piece_at s.vmirror = none := by
  show (bd.piece_at s.vmirror).map Piece.swapColor = none ↔ _
  cases bd.piece_at s.vmirror <;> simp

lemma piece_at_colorMirror_isSome (bd : Board) (s : Square) :
    (bd.colorMirror.piece_at s).isSome = (bd.piece_at s.vmirror).isSome := by
  show ((bd.piece_at s.vmirror).map Piece.swapColor).isSome = _
  cases bd.piece_at s.vmirror <;> simp

lemma bbBetween_vmirror (a b : Square) :
    bbBetween a.vmirror b.vmirror = (bbBetween a b).image Square.vmirror := by
  rw [bbBetween, bbBetween, filter_univ_vmirror]
  apply Finset.filter_congr
  intro t _
  have h := betweenPred_vmirror a b t.vmirror
  rwa [Square.vmirror_vmirror] at h

lemma emptyBetween_colorMirror (bd : Board) (x y : Square) :
    (∀ u ∈ bbBetween x y, bd.colorMirror.piece_at u = none) ↔
      ∀ u ∈ bbBetween x.vmirror y.vmirror, bd.piece_at u = none := by
  rw [bbBetween_vmirror]
  constructor
  · intro h u hu
    rw [mem_image_vmirror] at hu
    have h2 := h u.vmirror hu
    rwa [piece_at_colorMirror_eq_none, Square.vmirror_vmirror] at h2
  · intro h u hu
    rw [piece_at_colorMirror_eq_none]
    exact h u.vmirror ((mem_image_vmirror _ _).mpr
      (by rwa [Square.vmirror_vmirror]))

lemma attacksSquare_colorMirror (bd : Board) (src dst : Square) :
    attacksSquare bd.colorMirror src dst =
      attacksSquare bd src.vmirror dst.vmirror := by
  have hms : bd.colorMirror.piece_at src =
      (bd.piece_at src.vmirror).map Piece.swapColor := rfl
  cases hp : bd.piece_at src.vmirror with
  | none => simp only [attacksSquare, hms, hp, Option.map_none']
  | some p =>
      obtain ⟨pc, pt⟩ := p
      have hsw : (some (Piece.mk pc pt)).map Piece.swapColor =
          some ⟨pc.other, pt⟩ := rfl
      cases pt <;> simp only [attacksSquare, hms, hp, hsw]
      · have h := pawnCaptureMove_vmirror pc src.vmirror dst.vmirror
        rwa [Square.vmirror_vmirror, Square.vmirror_vmirror] at h
      · exact (knightMove_vmirror src dst).symm
      · congr 1
        · exact (diagLine_vmirror src dst).symm
        · rw [decide_eq_decide]
          exact emptyBetween_colorMirror bd src dst
      · congr 1
        · exact (rookLine_vmirror src dst).symm
        · rw [decide_eq_decide]
          exact emptyBetween_colorMirror bd src dst
      · congr 1
        · rw [diagLine_vmirror, rookLine_vmirror]
        · rw [decide_eq_decide]
          exact emptyBetween_colorMirror bd src dst
      · exact (kingMove_vmirror src dst).symm

lemma attacks_colorMirror (bd : Board) (src : Square) :
    bd.colorMirror.attacks src =
      (bd.attacks src.vmirror).image Square.vmirror := by
  rw [Board.attacks, Board.attacks, filter_univ_vmirror]
  apply Finset.filter_congr
  intro t _
  rw [attacksSquare_colorMirror]

lemma attackers_colorMirror (bd : Board) (c : Color) (dst : Square) :
    bd.colorMirror.attackers c dst =
      (bd.attackers c.other dst.vmirror).image Square.vmirror := by
  rw [Board.attackers, Board.attackers, filter_univ_vmirror]
  apply Finset.filter_congr
  intro t _
  rw [attacksSquare_colorMirror, color_at_colorMirror, map_other_eq_some]

lemma card_attackers_colorMirror (bd : Board) (c : Color) (dst : Square) :
    (bd.colorMirror.attackers c dst).card =
      (bd.attackers c.other dst.vmirror).card := by
  rw [attackers_colorMirror]
  exact Finset.card_image_of_injective _ Square.vmirror_injective

lemma attackers_colorMirror_eq_empty (bd : Board) (c : Color) (dst : Square) :
    bd.colorMirror.attackers c dst = ∅ ↔
      bd.attackers c.other dst.vmirror = ∅ := by
  rw [attackers_colorMirror, Finset.image_eq_empty]

lemma king_colorMirror (bd : Board) (c : Color)
    (h : (bd.pieces .king c.other).card ≤ 1) :
    bd.colorMirror.king c = (bd.king c.other).map Square.vmirror := by
  rw [Board.king, Board.king, pieces_colorMirror]
  rcases Finset.eq_empty_or_nonempty (bd.pieces .king c.other) with he | hne
  · simp [he]
  · have hcard : (bd.pieces .king c.other).card = 1 :=
      le_antisymm h (Finset.one_le_card.mpr hne)
    obtain ⟨x, hx⟩ := Finset.card_eq_one.mp hcard
    rw [hx]
    simp [Finset.image_singleton, Finset.max'_singleton]

lemma is_passed_pawn_colorMirror (bd : Board) (c : Color) (s : Square) :
    is_passed_pawn bd.colorMirror c s ↔
      is_passed_pawn bd c.other s.vmirror := by
  unfold is_passed_pawn
  rw [pieces_colorMirror, Color.other_other]
  constructor
  · intro h u hu hmem
    have hu2 : u.vmirror ∈ forward_span c s := by
      rw [forward_span, Finset.mem_filter]
      refine ⟨Finset.mem_univ _, ?_⟩
      have h3 := forward_span_pred_vmirror c s u.vmirror
      rw [Square.vmirror_vmirror] at h3
      rw [forward_span, Finset.mem_filter] at hu
      exact h3.mp hu.2
    exact h u.vmirror hu2 ((mem_image_vmirror _ _).mpr
      (by rwa [Square.vmirror_vmirror]))
  · intro h u hu hmem
    rw [mem_image_vmirror] at hmem
    have hu2 : u.vmirror ∈ forward_span c.other s.vmirror := by
      rw [forward_span, Finset.mem_filter]
      refine ⟨Finset.mem_univ _, ?_⟩
      rw [forward_span, Finset.mem_filter] at hu
      exact (forward_span_pred_vmirror c s u).mpr hu.2
    exact h u.vmirror hu2 hmem

/-! ### Mirror equivariance of the four features -/

lemma forall_vmirror (P : Square → Prop) :
    (∀ t : Square, P t) ↔ ∀ t : Square, P t.vmirror := by
  constructor
  · intro h t
    exact h t.vmirror
  · intro h t
    have h2 := h t.vmirror
    rwa [Square.vmirror_vmirror] at h2

lemma card_filter_transport (p q : Square → Prop) [DecidablePred p]
    [DecidablePred q] (h : ∀ t, p t ↔ q t.vmirror) :
    (Finset.univ.filter p).card = (Finset.univ.filter q).card := by
  rw [Finset.filter_congr (fun t _ => h t)]
  exact card_filter_univ_vmirror q

lemma relative_rank_vmirror' (c : Color) (s : Square) :
    relative_rank c s.vmirror = relative_rank c.other s := by
  have h := relative_rank_vmirror c.other s
  rwa [Color.other_other] at h

lemma king_shield_pred_vmirror' (c : Color) (s t : Square) :
    king_shield_pred c s.vmirror t ↔ king_shield_pred c.other s t.vmirror := by
  have h := king_shield_pred_vmirror c.other s t.vmirror
  rwa [Color.other_other, Square.vmirror_vmirror] at h

lemma forward_span_pred_vmirror' (c : Color) (s t : Square) :
    forward_span_pred c s.vmirror t ↔
      forward_span_pred c.other s t.vmirror := by
  have h := forward_span_pred_vmirror c.other s t.vmirror
  rwa [Color.other_other, Square.vmirror_vmirror] at h

lemma color_at_colorMirror_eq_some (bd : Board) (u : Square) (c : Color) :
    bd.colorMirror.color_at u = some c ↔
      bd.color_at u.vmirror = some c.other := by
  rw [color_at_colorMirror, map_other_eq_some]

lemma king_safety_body_colorMirror (bd : Board) (c : Color) (ks : Square) :
    king_safety_body bd.colorMirror c ks.vmirror =
      king_safety_body bd c.other ks := by
  have hpawns := pieces_colorMirror bd .pawn c
  have hshield :
      ((king_shield_squares c ks.vmirror).filter
        (· ∈ bd.colorMirror.pieces .pawn c)).card =
      ((king_shield_squares c.other ks).filter
        (· ∈ bd.pieces .pawn c.other)).card := by
    rw [hpawns, king_shield_squares, king_shield_squares,
      Finset.filter_filter, Finset.filter_filter]
    apply card_filter_transport
    intro t
    rw [mem_image_vmirror, king_shield_pred_vmirror' c ks t]
  have hstorm :
      (∑ sq ∈ bd.colorMirror.pieces .pawn c,
        if fileDiff sq ks.vmirror ≤ 1 ∧ 3 < relative_rank c sq then
          6 * ((relative_rank c sq - 3 : Nat) : ℤ)
        else 0) =
      ∑ sq ∈ bd.pieces .pawn c.other,
        if fileDiff sq ks ≤ 1 ∧ 3 < relative_rank c.other sq then
          6 * ((relative_rank c.other sq - 3 : Nat) : ℤ)
        else 0 := by
    rw [hpawns, Finset.sum_image
      (fun x _ y _ h => Square.vmirror_injective h)]
    apply Finset.sum_congr rfl
    intro sq _
    rw [fileDiff_vmirror, relative_rank_vmirror' c sq]
  have hopen :
      ((∀ sq ∈ (forward_span c ks.vmirror).filter
          (fun sq => sq.file = ks.vmirror.file),
        sq ∉ bd.colorMirror.pieces .pawn c) ↔
      (∀ sq ∈ (forward_span c.other ks).filter
          (fun sq => sq.file = ks.file),
        sq ∉ bd.pieces .pawn c.other)) := by
    rw [hpawns]
    simp only [forward_span, Finset.mem_filter, Finset.mem_univ, true_and,
      Square.vmirror_file, mem_image_vmirror, and_imp]
    constructor
    · intro h t ht hf hmem
      have hp : forward_span_pred c ks.vmirror t.vmirror := by
        rw [forward_span_pred_vmirror' c ks t.vmirror,
          Square.vmirror_vmirror]
        exact ht
      have h2 := h t.vmirror hp (by simpa using hf)
      rw [Square.vmirror_vmirror] at h2
      exact h2 hmem
    · intro h t ht hf hmem
      have hp : forward_span_pred c.other ks t.vmirror :=
        (forward_span_pred_vmirror' c ks t).mp ht
      exact h t.vmirror hp (by simpa using hf) hmem
  have hsliders :
      bd.colorMirror.pieces .rook c.other ∪
        bd.colorMirror.pieces .queen c.other =
      ((bd.pieces .rook c ∪ bd.pieces .queen c).image Square.vmirror) := by
    rw [pieces_colorMirror, pieces_colorMirror, Color.other_other,
      Finset.image_union]
  have hslider :
      ((∃ slider ∈ bd.colorMirror.pieces .rook c.other ∪
          bd.colorMirror.pieces .queen c.other,
        slider.file = ks.vmirror.file ∧
        (bbBetween slider ks.vmirror).Nonempty ∧
        ∀ u ∈ bbBetween slider ks.vmirror,
          ¬ bd.colorMirror.color_at u = some c) ↔
      (∃ slider ∈ bd.pieces .rook c ∪ bd.pieces .queen c,
        slider.file = ks.file ∧
        (bbBetween slider ks).Nonempty ∧
        ∀ u ∈ bbBetween slider ks,
          ¬ bd.color_at u = some c.other)) := by
    rw [hsliders]
    constructor
    · rintro ⟨slider, hmem, hfile, hne, hemp⟩
      rw [mem_image_vmirror] at hmem
      refine ⟨slider.vmirror, hmem, by simpa using hfile, ?_, ?_⟩
      · have : bbBetween slider ks.vmirror =
            (bbBetween slider.vmirror ks).image Square.vmirror := by
          have h2 := bbBetween_vmirror slider.vmirror ks
          rwa [Square.vmirror_vmirror] at h2
        rw [this] at hne
        exact (Finset.image_nonempty.mp hne)
      · intro u hu
        have : bbBetween slider ks.vmirror =
            (bbBetween slider.vmirror ks).image Square.vmirror := by
          have h2 := bbBetween_vmirror slider.vmirror ks
          rwa [Square.vmirror_vmirror] at h2
        have h3 := hemp u.vmirror (by
          rw [this, mem_image_vmirror, Square.vmirror_vmirror]
          exact hu)
        rw [color_at_colorMirror_eq_some, Square.vmirror_vmirror] at h3
        exact h3
    · rintro ⟨slider, hmem, hfile, hne, hemp⟩
      refine ⟨slider.vmirror, (mem_image_vmirror _ _).mpr
        (by rwa [Square.vmirror_vmirror]), by simpa using hfile, ?_, ?_⟩
      · rw [bbBetween_vmirror]
        exact Finset.image_nonempty.mpr hne
      · intro u hu
        rw [bbBetween_vmirror, mem_image_vmirror] at hu
        have h3 := hemp u.vmirror hu
        rw [color_at_colorMirror_eq_some]
        exact h3
  have hflank : ∀ x : Square,
      (flank_square c x ∈ bd.colorMirror.pieces .pawn c ↔
        flank_square c.other x ∈ bd.pieces .pawn c.other) := by
    intro x
    rw [hpawns, mem_image_vmirror, flank_square_other]
  have hring :
      (((Finset.univ.filter fun sq => kingMove ks.vmirror sq = true).filter
        fun sq => (bd.colorMirror.piece_at sq).isSome ∧
          ¬ bd.colorMirror.color_at sq = some c).card) =
      ((Finset.univ.filter fun sq => kingMove ks sq = true).filter
        fun sq => (bd.piece_at sq).isSome ∧
          ¬ bd.color_at sq = some c.other).card := by
    rw [Finset.filter_filter, Finset.filter_filter]
    apply card_filter_transport
    intro t
    rw [piece_at_colorMirror_isSome, color_at_colorMirror_eq_some]
    have hkm : kingMove ks.vmirror t = kingMove ks t.vmirror := by
      have h2 := kingMove_vmirror ks t.vmirror
      rwa [Square.vmirror_vmirror] at h2
    rw [hkm]
  simp only [king_safety_body, Color.other_other]
  rw [hshield, hstorm, hring]
  rw [if_congr hopen rfl rfl, if_congr hslider rfl rfl,
    if_congr (or_congr (and_congr (hflank ⟨6, 3⟩) (hflank ⟨7, 3⟩))
      (and_congr (hflank ⟨6, 4⟩) (hflank ⟨7, 5⟩))) rfl rfl]

lemma king_safety_for_colorMirror (bd : Board) (c : Color)
    (h : (bd.pieces .king c.other).card ≤ 1) :
    king_safety_for bd.colorMirror c = king_safety_for bd c.other := by
  rw [king_safety_for, king_safety_for, king_colorMirror bd c h]
  cases bd.king c.other with
  | none => rfl
  | some ks =>
      simp only [Option.map_some']
      exact king_safety_body_colorMirror bd c ks

lemma blockSquare_vmirror' (c : Color) (s : Square) :
    blockSquare c s.vmirror = (blockSquare c.other s).map Square.vmirror := by
  have h := blockSquare_vmirror c.other s
  rwa [Color.other_other] at h

lemma filter_image_vmirror (A : Finset Square) (q : Square → Prop)
    [DecidablePred q] :
    (A.image Square.vmirror).filter q =
      (A.filter fun x => q x.vmirror).image Square.vmirror := by
  ext t
  simp only [Finset.mem_filter, mem_image_vmirror]
  rw [Square.vmirror_vmirror]

lemma passedPawnBonus_colorMirror (bd : Board) (c : Color) (sq : Square)
    (hk : (bd.pieces .king c).card ≤ 1) :
    passedPawnBonus bd.colorMirror c sq.vmirror =
      passedPawnBonus bd c.other sq := by
  have hrel := relative_rank_vmirror' c sq
  have hkc : (bd.pieces .king c.other.other).card ≤ 1 := by
    rwa [Color.other_other]
  have hking : bd.colorMirror.king c.other = (bd.king c).map Square.vmirror := by
    rw [king_colorMirror bd c.other hkc, Color.other_other]
  have hblockPart :
      (match blockSquare c sq.vmirror with
        | none => (0 : ℤ)
        | some block_sq =>
            let attackers_us := (bd.colorMirror.attackers c block_sq).card
            let attackers_them :=
              (bd.colorMirror.attackers c.other block_sq).card
            let d : ℤ := (attackers_us : ℤ) - (attackers_them : ℤ)
            let pieceCase : ℤ :=
              match bd.colorMirror.piece_at block_sq with
              | none => 6 + 2 * (relative_rank c sq.vmirror : ℤ) + max d 0 * 4
              | some piece => if piece.color = c then 4 else -6 + d * 5
            pieceCase + (if 1 < d then d * 3 else 0)) =
      (match blockSquare c.other sq with
        | none => (0 : ℤ)
        | some block_sq =>
            let attackers_us := (bd.attackers c.other block_sq).card
            let attackers_them := (bd.attackers c.other.other block_sq).card
            let d : ℤ := (attackers_us : ℤ) - (attackers_them : ℤ)
            let pieceCase : ℤ :=
              match bd.piece_at block_sq with
              | none => 6 + 2 * (relative_rank c.other sq : ℤ) + max d 0 * 4
              | some piece => if piece.color = c.other then 4 else -6 + d * 5
            pieceCase + (if 1 < d then d * 3 else 0)) := by
    rw [blockSquare_vmirror' c sq]
    cases hbs : blockSquare c.other sq with
    | none => rfl
    | some bs =>
        simp only [Option.map_some']
        have hus : (bd.colorMirror.attackers c bs.vmirror).card =
            (bd.attackers c.other bs).card := by
          rw [card_attackers_colorMirror, Square.vmirror_vmirror]
        have hthem : (bd.colorMirror.attackers c.other bs.vmirror).card =
            (bd.attackers c.other.other bs).card := by
          rw [card_attackers_colorMirror, Square.vmirror_vmirror]
        rw [hus, hthem, hrel]
        have hpiece : bd.colorMirror.piece_at bs.vmirror =
            (bd.piece_at bs).map Piece.swapColor := by
          show (bd.piece_at bs.vmirror.vmirror).map Piece.swapColor = _
          rw [Square.vmirror_vmirror]
        rw [hpiece]
        cases hq : bd.piece_at bs with
        | none => rfl
        | some q =>
            simp only [Option.map_some', Piece.swapColor]
            have hcol : (q.color.other = c) ↔ (q.color = c.other) :=
              Color.other_eq_iff q.color c
            rw [if_congr hcol rfl rfl]
  have hkingPart :
      (match bd.colorMirror.king c.other with
        | none => (0 : ℤ)
        | some enemy_king =>
            if 5 ≤ relative_rank c sq.vmirror ∧
                3 < square_distance enemy_king sq.vmirror then 18 else 0) =
      (match bd.king c with
        | none => (0 : ℤ)
        | some enemy_king =>
            if 5 ≤ relative_rank c.other sq ∧
                3 < square_distance enemy_king sq then 18 else 0) := by
    rw [hking]
    cases hek : bd.king c with
    | none => rfl
    | some ek =>
        simp only [Option.map_some']
        rw [hrel, square_distance_vmirror]
  simp only [passedPawnBonus]
  rw [hblockPart, hkingPart, hrel]
  simp only [Color.other_other]

lemma passed_pawn_score_colorMirror (bd : Board) (c : Color)
    (hk : (bd.pieces .king c).card ≤ 1) :
    passed_pawn_score bd.colorMirror c = passed_pawn_score bd c.other := by
  rw [passed_pawn_score, passed_pawn_score, Finset.sum_filter,
    Finset.sum_filter, pieces_colorMirror,
    Finset.sum_image (fun x _ y _ h => Square.vmirror_injective h)]
  apply Finset.sum_congr rfl
  intro sq _
  have hip : is_passed_pawn bd.colorMirror c sq.vmirror ↔
      is_passed_pawn bd c.other sq := by
    rw [is_passed_pawn_colorMirror, Square.vmirror_vmirror]
  rw [if_congr hip (passedPawnBonus_colorMirror bd c sq hk) rfl]

lemma knightPenalty_colorMirror (bd : Board) (c : Color) (sq : Square) :
    knightPenalty bd.colorMirror c sq.vmirror = knightPenalty bd c.other sq := by
  have hatt : bd.colorMirror.attacks sq.vmirror =
      (bd.attacks sq).image Square.vmirror := by
    rw [attacks_colorMirror, Square.vmirror_vmirror]
  have hmob :
      ((bd.colorMirror.attacks sq.vmirror).filter
        fun dst => ¬ bd.colorMirror.color_at dst = some c).card =
      ((bd.attacks sq).filter
        fun dst => ¬ bd.color_at dst = some c.other).card := by
    rw [hatt, filter_image_vmirror,
      Finset.card_image_of_injective _ Square.vmirror_injective]
    apply congrArg
    apply Finset.filter_congr
    intro t _
    rw [color_at_colorMirror_eq_some, Square.vmirror_vmirror]
  have hedge :
      ((sq.vmirror.file : Nat) = 0 ∨ (sq.vmirror.file : Nat) = 7 ∨
        relative_rank c sq.vmirror = 0 ∨ relative_rank c sq.vmirror = 7) ↔
      ((sq.file : Nat) = 0 ∨ (sq.file : Nat) = 7 ∨
        relative_rank c.other sq = 0 ∨ relative_rank c.other sq = 7) := by
    rw [relative_rank_vmirror' c sq, Square.vmirror_file]
  have hcentral : sq.vmirror ∈ centralSquares ↔ sq ∈ centralSquares :=
    centralSquares_vmirror sq
  have hsupp :
      ((∃ t ∈ bd.colorMirror.attackers c sq.vmirror,
        bd.colorMirror.piece_at t = some ⟨c, .pawn⟩) ↔
      (∃ t ∈ bd.attackers c.other sq,
        bd.piece_at t = some ⟨c.other, .pawn⟩)) := by
    rw [attackers_colorMirror, Square.vmirror_vmirror]
    constructor
    · rintro ⟨t, ht, hpt⟩
      rw [mem_image_vmirror] at ht
      refine ⟨t.vmirror, ht, ?_⟩
      have : (bd.piece_at t.vmirror).map Piece.swapColor =
          some ⟨c, .pawn⟩ := hpt
      rwa [map_swapColor_eq_some] at this
    · rintro ⟨t, ht, hpt⟩
      refine ⟨t.vmirror, (mem_image_vmirror _ _).mpr
        (by rwa [Square.vmirror_vmirror]), ?_⟩
      show (bd.piece_at t.vmirror.vmirror).map Piece.swapColor = _
      rw [Square.vmirror_vmirror, hpt]
      simp [Piece.swapColor]
  have hempty : (bd.colorMirror.attackers c.other sq.vmirror = ∅) ↔
      (bd.attackers c.other.other sq = ∅) := by
    rw [attackers_colorMirror_eq_empty, Square.vmirror_vmirror]
  simp only [knightPenalty]
  rw [hmob, if_congr hedge rfl rfl, if_congr hcentral
    (by rw [if_congr hsupp rfl rfl, if_congr hempty rfl rfl]) rfl]

lemma knight_mobility_colorMirror (bd : Board) (c : Color) :
    knight_mobility bd.colorMirror c = knight_mobility bd c.other := by
  rw [knight_mobility, knight_mobility, pieces_colorMirror,
    Finset.sum_image (fun x _ y _ h => Square.vmirror_injective h)]
  apply Finset.sum_congr rfl
  intro sq _
  rw [knightPenalty_colorMirror]

lemma square_distance_comm (a b : Square) :
    square_distance a b = square_distance b a := by
  simp only [square_distance, fileDiff, rankDiff]
  omega

lemma endgame_white_sum_mirror (bd : Board) (kb kw : Square) :
    (∑ sq ∈ (bd.colorMirror.pieces .pawn .white).filter
        (is_passed_pawn bd.colorMirror .white ·),
      (max 0 (6 - (square_distance kb.vmirror sq : ℤ)) * 4 -
        (square_distance kw.vmirror sq : ℤ) * 6)) =
    -(∑ sq ∈ (bd.pieces .pawn .black).filter (is_passed_pawn bd .black ·),
      (-(max 0 (6 - (square_distance kb sq : ℤ)) * 4) +
        (square_distance kw sq : ℤ) * 6)) := by
  rw [← Finset.sum_neg_distrib, Finset.sum_filter, Finset.sum_filter,
    pieces_colorMirror bd .pawn .white,
    Finset.sum_image (fun x _ y _ h => Square.vmirror_injective h)]
  apply Finset.sum_congr rfl
  intro sq _
  have hip : is_passed_pawn bd.colorMirror .white sq.vmirror ↔
      is_passed_pawn bd .black sq := by
    have h := is_passed_pawn_colorMirror bd .white sq.vmirror
    rw [Square.vmirror_vmirror] at h
    exact h
  by_cases hp : is_passed_pawn bd .black sq
  · rw [if_pos (hip.mpr hp), if_pos hp, square_distance_vmirror,
      square_distance_vmirror]
    ring
  · rw [if_neg (fun hx => hp (hip.mp hx)), if_neg hp]

lemma endgame_black_sum_mirror (bd : Board) (kb kw : Square) :
    (∑ sq ∈ (bd.colorMirror.pieces .pawn .black).filter
        (is_passed_pawn bd.colorMirror .black ·),
      (-(max 0 (6 - (square_distance kw.vmirror sq : ℤ)) * 4) +
        (square_distance kb.vmirror sq : ℤ) * 6)) =
    -(∑ sq ∈ (bd.pieces .pawn .white).filter (is_passed_pawn bd .white ·),
      (max 0 (6 - (square_distance kw sq : ℤ)) * 4 -
        (square_distance kb sq : ℤ) * 6)) := by
  rw [← Finset.sum_neg_distrib, Finset.sum_filter, Finset.sum_filter,
    pieces_colorMirror bd .pawn .black,
    Finset.sum_image (fun x _ y _ h => Square.vmirror_injective h)]
  apply Finset.sum_congr rfl
  intro sq _
  have hip : is_passed_pawn bd.colorMirror .black sq.vmirror ↔
      is_passed_pawn bd .white sq := by
    have h := is_passed_pawn_colorMirror bd .black sq.vmirror
    rw [Square.vmirror_vmirror] at h
    exact h
  by_cases hp : is_passed_pawn bd .white sq
  · rw [if_pos (hip.mpr hp), if_pos hp, square_distance_vmirror,
      square_distance_vmirror]
    ring
  · rw [if_neg (fun hx => hp (hip.mp hx)), if_neg hp]

lemma pawn_endgame_feature_colorMirror (bd : Board)
    (hw : (bd.pieces .king .white).card ≤ 1)
    (hb : (bd.pieces .king .black).card ≤ 1) :
    pawn_endgame_feature bd.colorMirror = -(pawn_endgame_feature bd) := by
  have hU : bd.colorMirror.pieces .bishop .white ∪
        bd.colorMirror.pieces .bishop .black ∪
        bd.colorMirror.pieces .knight .white ∪
        bd.colorMirror.pieces .knight .black ∪
        bd.colorMirror.pieces .rook .white ∪
        bd.colorMirror.pieces .rook .black ∪
        bd.colorMirror.pieces .queen .white ∪
        bd.colorMirror.pieces .queen .black =
      (bd.pieces .bishop .white ∪ bd.pieces .bishop .black ∪
        bd.pieces .knight .white ∪ bd.pieces .knight .black ∪
        bd.pieces .rook .white ∪ bd.pieces .rook .black ∪
        bd.pieces .queen .white ∪
        bd.pieces .queen .black).image Square.vmirror := by
    simp only [pieces_colorMirror, Color.other, ← Finset.image_union]
    congr 1
    ext s
    simp only [Finset.mem_union]
    tauto
  have hne : (bd.colorMirror.pieces .bishop .white ∪
        bd.colorMirror.pieces .bishop .black ∪
        bd.colorMirror.pieces .knight .white ∪
        bd.colorMirror.pieces .knight .black ∪
        bd.colorMirror.pieces .rook .white ∪
        bd.colorMirror.pieces .rook .black ∪
        bd.colorMirror.pieces .queen .white ∪
        bd.colorMirror.pieces .queen .black).Nonempty ↔
      (bd.pieces .bishop .white ∪ bd.pieces .bishop .black ∪
        bd.pieces .knight .white ∪ bd.pieces .knight .black ∪
        bd.pieces .rook .white ∪ bd.pieces .rook .black ∪
        bd.pieces .queen .white ∪ bd.pieces .queen .black).Nonempty := by
    rw [hU, Finset.image_nonempty]
  have hkw : bd.colorMirror.king .white =
      (bd.king .black).map Square.vmirror := king_colorMirror bd .white hb
  have hkb : bd.colorMirror.king .black =
      (bd.king .white).map Square.vmirror := king_colorMirror bd .black hw
  simp only [pawn_endgame_feature]
  by_cases hnon : (bd.pieces .bishop .white ∪ bd.pieces .bishop .black ∪
      bd.pieces .knight .white ∪ bd.pieces .knight .black ∪
      bd.pieces .rook .white ∪ bd.pieces .rook .black ∪
      bd.pieces .queen .white ∪ bd.pieces .queen .black).Nonempty
  · rw [if_pos (hne.mpr hnon), if_pos hnon, neg_zero]
  · rw [if_neg (fun hx => hnon (hne.mp hx)), if_neg hnon, hkw, hkb]
    cases hbk : bd.king .black with
    | none =>
        cases hwk : bd.king .white <;> simp
    | some kb =>
        cases hwk : bd.king .white with
        | none => simp
        | some kw =>
            simp only [Option.map_some']
            have hbase : center_bonus kb.vmirror - center_bonus kw.vmirror =
                -(center_bonus kw - center_bonus kb) := by
              rw [center_bonus_vmirror, center_bonus_vmirror]
              ring
            have hopp :
                ((kb.vmirror.file = kw.vmirror.file ∨
                  kb.vmirror.rank = kw.vmirror.rank) ∧
                  square_distance kb.vmirror kw.vmirror = 2) ↔
                ((kw.file = kb.file ∨ kw.rank = kb.rank) ∧
                  square_distance kw kb = 2) := by
              rw [square_distance_vmirror, square_distance_comm]
              simp only [Square.vmirror_file, Square.vmirror_rank,
                Fin.rev_inj]
              rw [eq_comm (a := kb.file), eq_comm (a := kb.rank)]
            have hturn : bd.colorMirror.turn = bd.turn.other := rfl
            rw [endgame_white_sum_mirror bd kb kw,
              endgame_black_sum_mirror bd kb kw, hbase,
              if_congr hopp rfl rfl, hturn]
            by_cases hoppc : (kw.file = kb.file ∨ kw.rank = kb.rank) ∧
                square_distance kw kb = 2
            · rw [if_pos hoppc, if_pos hoppc]
              cases ht : bd.turn <;>
                · simp only [Color.other, reduceCtorEq, reduceIte]
                  ring
            · rw [if_neg hoppc, if_neg hoppc]
              ring

lemma neg4_neg4 (f : ℤ × ℤ × ℤ × ℤ) : neg4 (neg4 f) = f := by
  obtain ⟨a, b, c, d⟩ := f
  simp [neg4]

lemma feature_vector_colorMirror (bd : Board)
    (hw : (bd.pieces .king .white).card ≤ 1)
    (hb : (bd.pieces .king .black).card ≤ 1) :
    feature_vector bd.colorMirror = neg4 (feature_vector bd) := by
  have h1 := king_safety_for_colorMirror bd .white hb
  have h2 := king_safety_for_colorMirror bd .black hw
  have h3 := passed_pawn_score_colorMirror bd .white hw
  have h4 := passed_pawn_score_colorMirror bd .black hb
  have h5 := knight_mobility_colorMirror bd .white
  have h6 := knight_mobility_colorMirror bd .black
  have h7 := pawn_endgame_feature_colorMirror bd hw hb
  simp only [Color.other] at h1 h2 h3 h4 h5 h6
  simp only [feature_vector, neg4, h1, h2, h3, h4, h5, h6, h7,
    Prod.mk.injEq]
  refine ⟨by ring, by ring, by ring, trivial⟩

lemma orientation_colorMirror_eq (bd : Board)
    (hw : (bd.pieces .king .white).card ≤ 1)
    (hb : (bd.pieces .king .black).card ≤ 1) :
    orientation bd.colorMirror (feature_vector bd.colorMirror) =
      orientation bd (feature_vector bd) := by
  rw [feature_vector_colorMirror bd hw hb, orientation, orientation]
  have hturn : bd.colorMirror.turn = bd.turn.other := rfl
  rw [hturn]
  cases bd.turn with
  | white => simp [Color.other, neg4_neg4]
  | black => simp [Color.other]

/-- A position with only the two kings: White king on a1, Black king on
e8, White to move. -/
def twoKingsBoard : Board where
  piece_at s :=
    if s = ⟨0, 0⟩ then some ⟨.white, .king⟩
    else if s = ⟨4, 7⟩ then some ⟨.black, .king⟩
    else none
  turn := .white

/-- C4 counterexample: on the two-king position the oriented feature
vectors of the position and of its colour-reversed mirror (side to move
flipped) are equal — and nonzero — rather than negated, so the claim
"orientation after feature_vector yields exactly negated vectors" fails
here. -/
theorem oriented_features_of_mirror_not_negated :
    ¬ (orientation twoKingsBoard.colorMirror
        (feature_vector twoKingsBoard.colorMirror) =
      neg4 (orientation twoKingsBoard (feature_vector twoKingsBoard))) := by
  rw [orientation_colorMirror_eq twoKingsBoard (by decide) (by decide)]
  decide

/-- C4 amended: for every position with at most one king per colour,
computing the four-feature vector for the colour-reversed mirror with
the side to move flipped yields exactly the negated raw `feature_vector`;
consequently the oriented vectors (`orientation` after `feature_vector`)
of the position and of its mirror are exactly equal (orientation flips
the sign back). -/
theorem feature_mirror_negates_raw_vector (bd : Board)
    (hw : (bd.pieces .king .white).card ≤ 1)
    (hb : (bd.pieces .king .black).card ≤ 1) :
    feature_vector bd.colorMirror = neg4 (feature_vector bd) ∧
    orientation bd.colorMirror (feature_vector bd.colorMirror) =
      orientation bd (feature_vector bd) :=
  ⟨feature_vector_colorMirror bd hw hb,
    orientation_colorMirror_eq bd hw hb⟩

/-- C4 witness: the amended theorem evaluated on the two-king position. -/
theorem feature_mirror_negates_raw_vector_witness :
    feature_vector twoKingsBoard.colorMirror =
      neg4 (feature_vector twoKingsBoard) ∧
    orientation twoKingsBoard.colorMirror
        (feature_vector twoKingsBoard.colorMirror) =
      orientation twoKingsBoard (feature_vector twoKingsBoard) :=
  feature_mirror_negates_raw_vector twoKingsBoard (by decide) (by decide)

end Revolution
